import Mathlib

/-!
# Order confirmation webhook (`api/index.js`)

A shallow embedding of the order-confirmation path of the handler in
`api/index.js`: the line parser `parseOrderDetails`, the per-code loop of the
`db.runTransaction` callback, and the commit of the staged writes.

Modelling conventions.

* JavaScript strings are `String`; the library functions `split`, `trim`,
  `toLowerCase`, `toUpperCase` and `parseFloat` are written out below.
  Case mapping is the ASCII one (other characters are kept as they are).
* JavaScript numbers are `JSNum`: `NaN`, the two infinities, or an exact
  rational (rounding to binary64 is not modelled).
* A property that may be absent from an object is an `Option`; `none` is
  `undefined`.
* Stock quantities are integers, as in the data model of the inventory.
* The inventory collection is the list of its documents in query order. A
  document reference is the position of the document in that list.
* The transaction reads the store as it was when the transaction began, and
  its staged writes are applied in order when the callback returns; a throw
  inside the callback leaves the store as it was.
-/

namespace FacebookWebhook

/-! ## JavaScript strings -/

/-- White space and line terminators, the characters removed by `String.prototype.trim`. -/
def isJSWhiteSpace (c : Char) : Bool :=
  let n := c.toNat
  n == 0x09 || n == 0x0A || n == 0x0B || n == 0x0C || n == 0x0D || n == 0x20 ||
  n == 0xA0 || n == 0x1680 || (0x2000 ≤ n && n ≤ 0x200A) || n == 0x2028 ||
  n == 0x2029 || n == 0x202F || n == 0x205F || n == 0x3000 || n == 0xFEFF

/-- Characters of a string without leading and trailing white space. -/
def trimChars (cs : List Char) : List Char :=
  ((cs.dropWhile isJSWhiteSpace).reverse.dropWhile isJSWhiteSpace).reverse

/-- The method `String.prototype.trim`. -/
def trim (s : String) : String := String.mk (trimChars s.data)

/-- The method `String.prototype.toLowerCase` (ASCII letters). -/
def toLowerCase (s : String) : String := String.mk (s.data.map Char.toLower)

/-- The method `String.prototype.toUpperCase` (ASCII letters). -/
def toUpperCase (s : String) : String := String.mk (s.data.map Char.toUpper)

/-- Pieces of a character list between the occurrences of `sep`; never empty. -/
def splitChars (sep : Char) : List Char → List (List Char)
  | [] => [[]]
  | c :: cs =>
    if c = sep then [] :: splitChars sep cs
    else
      match splitChars sep cs with
      | [] => [[c]]
      | p :: ps => (c :: p) :: ps

/-- The call `s.split(sep)` for a one-character separator. -/
def split (s : String) (sep : Char) : List String :=
  (splitChars sep s.data).map String.mk

/-- The call `parts.join(sep)`. -/
def join (parts : List String) (sep : String) : String :=
  sep.intercalate parts

/-! ## JavaScript numbers -/

/-- A JavaScript number: `NaN`, `Infinity`, `-Infinity` or a finite value. -/
inductive JSNum where
  | nan
  | posInf
  | negInf
  | fin (q : ℚ)
  deriving DecidableEq, Repr

namespace JSNum

/-- Unary minus. -/
def neg : JSNum → JSNum
  | nan => nan
  | posInf => negInf
  | negInf => posInf
  | fin q => fin (-q)

/-- The operator `+` on two numbers. -/
def add : JSNum → JSNum → JSNum
  | nan, _ => nan
  | _, nan => nan
  | posInf, negInf => nan
  | negInf, posInf => nan
  | posInf, _ => posInf
  | _, posInf => posInf
  | negInf, _ => negInf
  | _, negInf => negInf
  | fin a, fin b => fin (a + b)

/-- The operator `-` on two numbers. -/
def sub (a b : JSNum) : JSNum := add a (neg b)

/-- Truthiness of a number: every number but `NaN` and zero. -/
def truthy : JSNum → Bool
  | nan => false
  | fin q => q != 0
  | _ => true

end JSNum

/-- The conversion `ToNumber` of a number-valued property that may be `undefined`. -/
def toNumber : Option JSNum → JSNum
  | none => JSNum.nan
  | some n => n

/-- The expression `x || 0` for a number-valued property that may be `undefined`. -/
def orZero : Option JSNum → JSNum
  | none => JSNum.fin 0
  | some n => if n.truthy then n else JSNum.fin 0

/-- Value of a run of decimal digits. -/
def digitsToNat (ds : List Char) : Nat :=
  ds.foldl (fun n c => 10 * n + (c.toNat - 48)) 0

/-- Ten to an integer power. -/
def pow10 (e : Int) : ℚ :=
  if 0 ≤ e then (10 : ℚ) ^ e.toNat else 1 / (10 : ℚ) ^ (-e).toNat

/-- Exponent read from an optional exponent part: `e` or `E`, an optional sign and at
least one digit; `0` when there is no such part. -/
def parseExponent : List Char → Int
  | [] => 0
  | c :: rest =>
    if c = 'e' ∨ c = 'E' then
      match rest with
      | '+' :: ds => (digitsToNat (ds.takeWhile Char.isDigit) : Int)
      | '-' :: ds => - (digitsToNat (ds.takeWhile Char.isDigit) : Int)
      | ds => (digitsToNat (ds.takeWhile Char.isDigit) : Int)
    else 0

/-- Longest prefix that is an unsigned decimal literal (`Infinity`, digits with an
optional fraction and exponent, or a fraction starting with the point). -/
def parseUnsigned (cs : List Char) : JSNum :=
  if "Infinity".data.isPrefixOf cs then JSNum.posInf
  else
    let ip := cs.takeWhile Char.isDigit
    let rest := cs.dropWhile Char.isDigit
    match rest with
    | '.' :: r2 =>
      let fp := r2.takeWhile Char.isDigit
      let r3 := r2.dropWhile Char.isDigit
      if ip = [] ∧ fp = [] then JSNum.nan
      else JSNum.fin ((digitsToNat (ip ++ fp) : ℚ) / (10 : ℚ) ^ fp.length * pow10 (parseExponent r3))
    | _ =>
      if ip = [] then JSNum.nan
      else JSNum.fin ((digitsToNat ip : ℚ) * pow10 (parseExponent rest))

/-- The global function `parseFloat`. -/
def parseFloat (s : String) : JSNum :=
  match s.data.dropWhile isJSWhiteSpace with
  | '+' :: cs => parseUnsigned cs
  | '-' :: cs => (parseUnsigned cs).neg
  | cs => parseUnsigned cs

/-! ## The command parser -/

/-- The object built by `parseOrderDetails`, with the properties the handler reads from
it; `none` is a property that was never assigned. -/
structure OrderDetails where
  name : Option String := none
  address : Option String := none
  phone : Option String := none
  productCodes : Option (List String) := none
  deliveryCharge : Option JSNum := none
  paidInAdvance : Option JSNum := none
  cod : Option JSNum := none
  advancePaid : Option JSNum := none
  deriving DecidableEq, Repr

/-- The statement `if (key === "name") details.name = value`. -/
def setName (key value : String) (details : OrderDetails) : OrderDetails :=
  if key = "name" then { details with name := some value } else details

/-- The statement `if (key === "address") details.address = value`. -/
def setAddress (key value : String) (details : OrderDetails) : OrderDetails :=
  if key = "address" then { details with address := some value } else details

/-- The statement `if (key === "phone") details.phone = value`. -/
def setPhone (key value : String) (details : OrderDetails) : OrderDetails :=
  if key = "phone" then { details with phone := some value } else details

/-- The statement for the key `product code`: the value split on `,`, each piece trimmed. -/
def setProductCodes (key value : String) (details : OrderDetails) : OrderDetails :=
  if key = "product code" then
    { details with productCodes := some ((split value ',').map trim) }
  else details

/-- The statement for the key `delivery charge`: `parseFloat(value) || 0`. -/
def setDeliveryCharge (key value : String) (details : OrderDetails) : OrderDetails :=
  if key = "delivery charge" then
    { details with deliveryCharge := some (orZero (some (parseFloat value))) }
  else details

/-- The statement for the key `paid in advance`: `parseFloat(value) || 0`, assigned to
the property `paidInAdvance`. -/
def setPaidInAdvance (key value : String) (details : OrderDetails) : OrderDetails :=
  if key = "paid in advance" then
    { details with paidInAdvance := some (orZero (some (parseFloat value))) }
  else details

/-- The statement for the key `cod`: `parseFloat(value) || 0`. -/
def setCod (key value : String) (details : OrderDetails) : OrderDetails :=
  if key = "cod" then { details with cod := some (orZero (some (parseFloat value))) }
  else details

/-- Body of the loop over the lines in `parseOrderDetails`: the seven assignments, in
the order of the source, for a line with at least two parts. -/
def parseLine (details : OrderDetails) (line : String) : OrderDetails :=
  let parts := split line ':'
  if parts.length < 2 then details
  else
    let key := toLowerCase (trim (parts.headD ""))
    let value := trim (join (parts.drop 1) ":")
    setCod key value
      (setPaidInAdvance key value
        (setDeliveryCharge key value
          (setProductCodes key value
            (setPhone key value (setAddress key value (setName key value details))))))

/-- The function `parseOrderDetails`. -/
def parseOrderDetails (text : String) : OrderDetails :=
  (split text '\n').foldl parseLine {}

/-! ## The store -/

/-- The fields of an inventory document that the handler reads or writes. The fields
`sizes`, `price` and `sellingPrice` may be missing from a document. -/
structure ProductData where
  product_id : String
  name : String
  sizes : Option (List (String × Int))
  availableAmount : Int
  price : Option JSNum
  sellingPrice : Option JSNum
  deriving DecidableEq, Repr

/-- A document of the `inventory` collection: its identifier and its data. -/
structure ProductDoc where
  id : String
  data : ProductData
  deriving DecidableEq, Repr

/-- An entry pushed on `orderItems`. -/
structure OrderItem where
  productId : String
  productName : String
  selectedSizesAndQuantities : List (String × Int)
  unitSellingPrice : Option JSNum
  itemTotalSellingPrice : Option JSNum
  unitBuyingPrice : Option JSNum
  deriving DecidableEq, Repr

/-- A field value that the store fills in at commit. -/
inductive FieldValue where
  | serverTimestamp
  deriving DecidableEq, Repr

/-- The document written to the `orders` collection by `transaction.set`. -/
structure Order where
  customerName : Option String
  customerAddress : Option String
  customerPhoneNumber : Option String
  items : List OrderItem
  deliveryCharge : Option JSNum
  advancePaid : Option JSNum
  totalOrderPrice : Option JSNum
  codAmount : Option JSNum
  profit : JSNum
  status : String
  source : String
  createdAt : FieldValue
  orderDate : FieldValue
  userId : String
  deriving DecidableEq, Repr

/-- The two collections the handler works on. -/
structure Store where
  inventory : List ProductDoc
  orders : List Order
  deriving DecidableEq, Repr

/-- An entry pushed on `inventoryUpdates`: the document reference and the two fields
passed to `transaction.update`. -/
structure InventoryUpdate where
  ref : Nat
  sizes : List (String × Int)
  availableAmount : Int
  deriving DecidableEq, Repr

/-- The errors thrown inside the transaction callback. -/
inductive ConfirmError where
  /-- The error `Invalid code: ${code}`. -/
  | invalidCode (code : String)
  /-- The error `Product not found for code: ${productId}`. -/
  | productNotFound (productId : String)
  /-- The error `Product ${productData.name} (Size: ${sizeKey}) is out of stock.` -/
  | outOfStock (name : String) (sizeKey : String)
  /-- The `TypeError` of iterating a `productCodes` that is `undefined`. -/
  | notIterable
  deriving DecidableEq, Repr

deriving instance DecidableEq for Except

/-- First document, from position `i` on, whose `product_id` equals `productId`. -/
def queryFrom (productId : String) : List ProductDoc → Nat → Option (Nat × ProductDoc)
  | [], _ => none
  | d :: ds, i => if d.data.product_id = productId then some (i, d) else queryFrom productId ds (i + 1)

/-- The query `where("product_id", "==", productId).limit(1)` read through
`transaction.get`: the first matching document with its reference, if any. -/
def queryByProductId (db : Store) (productId : String) : Option (Nat × ProductDoc) :=
  queryFrom productId db.inventory 0

/-- The statement `currentSizes[sizeKey] -= 1` for a key that is present. -/
def decrementSize : List (String × Int) → String → List (String × Int)
  | [], _ => []
  | (k, q) :: rest, sizeKey =>
    if k = sizeKey then (k, q - 1) :: rest else (k, q) :: decrementSize rest sizeKey

/-- The expression `Object.values(sizes).reduce((a, b) => a + b, 0)`. -/
def sumValues (sizes : List (String × Int)) : Int :=
  sizes.foldl (fun a kv => a + kv.2) 0

/-! ## The transaction callback -/

/-- The three accumulators of the loop over the product codes. -/
structure LoopState where
  inventoryUpdates : List InventoryUpdate := []
  orderItems : List OrderItem := []
  totalCostOfGoods : JSNum := JSNum.fin 0
  deriving DecidableEq, Repr

/-- One iteration of `for (const code of orderDetails.productCodes)`. -/
def processCode (db : Store) (st : LoopState) (code : String) : Except ConfirmError LoopState :=
  match split code '-' with
  | [] => Except.error (ConfirmError.invalidCode code)
  | [_] => Except.error (ConfirmError.invalidCode code)
  | productId :: size :: _ =>
    if productId = "" ∨ size = "" then Except.error (ConfirmError.invalidCode code)
    else
      match queryByProductId db (trim productId) with
      | none => Except.error (ConfirmError.productNotFound productId)
      | some (ref, productDoc) =>
        let productData := productDoc.data
        let currentSizes := productData.sizes.getD []
        let sizeKey := toUpperCase (trim size)
        match currentSizes.lookup sizeKey with
        | none => Except.error (ConfirmError.outOfStock productData.name sizeKey)
        | some q =>
          if q = 0 ∨ q ≤ 0 then Except.error (ConfirmError.outOfStock productData.name sizeKey)
          else
            let currentSizes := decrementSize currentSizes sizeKey
            let newTotalStock := sumValues currentSizes
            Except.ok
              { inventoryUpdates :=
                  st.inventoryUpdates ++ [{ ref := ref, sizes := currentSizes, availableAmount := newTotalStock }]
                orderItems :=
                  st.orderItems ++
                    [{ productId := productDoc.id
                       productName := productData.name
                       selectedSizesAndQuantities := [(sizeKey, 1)]
                       unitSellingPrice := productData.sellingPrice
                       itemTotalSellingPrice := productData.sellingPrice
                       unitBuyingPrice := productData.price }]
                totalCostOfGoods := st.totalCostOfGoods.add (orZero productData.price) }

/-- The whole loop over the product codes, stopping at the first throw. -/
def processCodes (db : Store) : LoopState → List String → Except ConfirmError LoopState
  | st, [] => Except.ok st
  | st, code :: codes =>
    match processCode db st code with
    | Except.error e => Except.error e
    | Except.ok st1 => processCodes db st1 codes

/-- The writes staged by the callback: the inventory updates, in order, and the new order. -/
structure Staged where
  updates : List InventoryUpdate
  order : Order
  deriving DecidableEq, Repr

/-- The callback passed to `db.runTransaction`, run against the store `db` as read by the
transaction; `recipientId` is `webhookEvent.recipient.id`. -/
def transactionBody (db : Store) (orderDetails : OrderDetails) (recipientId : String) :
    Except ConfirmError Staged :=
  match orderDetails.productCodes with
  | none => Except.error ConfirmError.notIterable
  | some codes =>
    match processCodes db {} codes with
    | Except.error e => Except.error e
    | Except.ok st =>
      let profit :=
        (toNumber orderDetails.cod).sub (st.totalCostOfGoods.sub (toNumber orderDetails.advancePaid))
      Except.ok
        { updates := st.inventoryUpdates
          order :=
            { customerName := orderDetails.name
              customerAddress := orderDetails.address
              customerPhoneNumber := orderDetails.phone
              items := st.orderItems
              deliveryCharge := orderDetails.deliveryCharge
              advancePaid := orderDetails.paidInAdvance
              totalOrderPrice := orderDetails.cod
              codAmount := orderDetails.cod
              profit := profit
              status := "confirmed"
              source := "Facebook-Admin"
              createdAt := FieldValue.serverTimestamp
              orderDate := FieldValue.serverTimestamp
              userId := recipientId } }

/-- The write `transaction.update(ref, { sizes, availableAmount })` applied to the
collection: the two fields of the referenced document are replaced. -/
def applyUpdate (inventory : List ProductDoc) (u : InventoryUpdate) : List ProductDoc :=
  match inventory[u.ref]? with
  | none => inventory
  | some d =>
    inventory.set u.ref
      { d with data := { d.data with sizes := some u.sizes, availableAmount := u.availableAmount } }

/-- Commit of the staged writes, in the order they were staged. -/
def commit (db : Store) (w : Staged) : Store :=
  { inventory := w.updates.foldl applyUpdate db.inventory
    orders := db.orders ++ [w.order] }

/-- The call `db.runTransaction(callback)`: the outcome of the callback and the store
afterwards. A callback that throws leaves the store as it was. -/
def runTransaction (db : Store) (callback : Store → Except ConfirmError Staged) :
    Except ConfirmError Unit × Store :=
  match callback db with
  | Except.error e => (Except.error e, db)
  | Except.ok w => (Except.ok (), commit db w)

/-- Confirmation of an already parsed request. -/
def confirmDetails (db : Store) (orderDetails : OrderDetails) (recipientId : String) :
    Except ConfirmError Unit × Store :=
  runTransaction db (fun snapshot => transactionBody snapshot orderDetails recipientId)

/-- Confirmation of a message text: `parseOrderDetails` followed by the transaction. -/
def confirmOrder (db : Store) (messageText : String) (recipientId : String) :
    Except ConfirmError Unit × Store :=
  confirmDetails db (parseOrderDetails messageText) recipientId

/-- Total of all stored quantities, over all products and sizes. -/
def totalStock (db : Store) : Int :=
  (db.inventory.map (fun d => sumValues (d.data.sizes.getD []))).sum

/-- Quantity stored for a size of the document at position `ref`, if there is one. -/
def stockAt (db : Store) (ref : Nat) (sizeKey : String) : Option Int :=
  match db.inventory[ref]? with
  | none => none
  | some d => (d.data.sizes.getD []).lookup sizeKey

/-! ## Vocabulary of the statements -/

/-- First part of a code split on `-`: the `productId` of the destructuring. -/
def productIdPart (code : String) : String := ((split code '-')[0]?).getD ""

/-- Second part of a code split on `-`: the `size` of the destructuring, with `""` standing
for a missing second part. -/
def sizePart (code : String) : String := ((split code '-')[1]?).getD ""

/-- The key `size.trim().toUpperCase()` under which the stock of a code is kept. -/
def sizeKeyOf (code : String) : String := toUpperCase (trim (sizePart code))

/-- A code rejected by the test `!productId || !size` of the handler: its first part is
empty, or its second part is missing or empty. The parts are tested as they are, before
trimming, and parts after the second are not looked at. -/
def Malformed (code : String) : Prop := productIdPart code = "" ∨ sizePart code = ""

instance (code : String) : Decidable (Malformed code) :=
  inferInstanceAs (Decidable (productIdPart code = "" ∨ sizePart code = ""))

/-- Well-formedness in the words of the specification: the code splits on `-` into
exactly two parts, each non-empty once trimmed. -/
def SpecWellFormed (code : String) : Prop :=
  (split code '-').length = 2 ∧ ∀ p ∈ split code '-', trim p ≠ ""

instance (code : String) : Decidable (SpecWellFormed code) :=
  inferInstanceAs (Decidable ((split code '-').length = 2 ∧ ∀ p ∈ split code '-', trim p ≠ ""))

/-- Malformedness in the words of the specification: the code does not split into
exactly two non-empty trimmed parts. -/
def SpecMalformed (code : String) : Prop := ¬ SpecWellFormed code

instance (code : String) : Decidable (SpecMalformed code) :=
  inferInstanceAs (Decidable (¬ SpecWellFormed code))

/-- The code names no stored product. -/
def NamesNoProduct (db : Store) (code : String) : Prop :=
  queryByProductId db (trim (productIdPart code)) = none

instance (db : Store) (code : String) : Decidable (NamesNoProduct db code) :=
  inferInstanceAs (Decidable (queryByProductId db (trim (productIdPart code)) = none))

/-- The code names a stored product whose size entry is missing or not positive. -/
def NamesNoStock (db : Store) (code : String) : Prop :=
  ∃ ref doc, queryByProductId db (trim (productIdPart code)) = some (ref, doc) ∧
    ((doc.data.sizes.getD []).lookup (sizeKeyOf code) = none ∨
      ∃ q, (doc.data.sizes.getD []).lookup (sizeKeyOf code) = some q ∧ q ≤ 0)

/-- Some part of the code split on `-` is empty once trimmed. -/
def BlankPart (code : String) : Prop := ∃ p ∈ split code '-', trim p = ""

/-- The code resolves to the document `productDoc` at `ref`: it is not malformed, the
query finds that document, and the size it names has a positive quantity there. -/
def Resolves (db : Store) (code : String) (ref : Nat) (productDoc : ProductDoc) : Prop :=
  ¬ Malformed code ∧
    queryByProductId db (trim (productIdPart code)) = some (ref, productDoc) ∧
    ∃ q, (productDoc.data.sizes.getD []).lookup (sizeKeyOf code) = some q ∧ 0 < q

/-- The update staged for an accepted code. -/
def stagedUpdate (ref : Nat) (productDoc : ProductDoc) (sizeKey : String) : InventoryUpdate :=
  { ref := ref
    sizes := decrementSize (productDoc.data.sizes.getD []) sizeKey
    availableAmount := sumValues (decrementSize (productDoc.data.sizes.getD []) sizeKey) }

/-- The order item pushed for an accepted code. -/
def orderItem (productDoc : ProductDoc) (sizeKey : String) : OrderItem :=
  { productId := productDoc.id
    productName := productDoc.data.name
    selectedSizesAndQuantities := [(sizeKey, 1)]
    unitSellingPrice := productDoc.data.sellingPrice
    itemTotalSellingPrice := productDoc.data.sellingPrice
    unitBuyingPrice := productDoc.data.price }

/-- The loop state after an accepted code resolved to the document `productDoc` at `ref`. -/
def accept (st : LoopState) (ref : Nat) (productDoc : ProductDoc) (sizeKey : String) : LoopState :=
  { inventoryUpdates := st.inventoryUpdates ++ [stagedUpdate ref productDoc sizeKey]
    orderItems := st.orderItems ++ [orderItem productDoc sizeKey]
    totalCostOfGoods := st.totalCostOfGoods.add (orZero productDoc.data.price) }

/-- Every stored quantity is at least zero. -/
def NonNegStock (db : Store) : Prop :=
  ∀ d ∈ db.inventory, ∀ kv ∈ d.data.sizes.getD [], 0 ≤ kv.2

instance (db : Store) : Decidable (NonNegStock db) :=
  inferInstanceAs (Decidable (∀ d ∈ db.inventory, ∀ kv ∈ d.data.sizes.getD [], 0 ≤ kv.2))

/-- The stored `availableAmount` of a document is the sum of its stored quantities. -/
def AmountIsSum (d : ProductDoc) : Prop :=
  d.data.availableAmount = sumValues (d.data.sizes.getD [])

/-- A shirt stocked in sizes `M` (one piece) and `L` (three pieces). -/
def shirtDoc : ProductDoc :=
  { id := "doc1"
    data :=
      { product_id := "A", name := "Shirt", sizes := some [("M", 1), ("L", 3)]
        availableAmount := 4, price := some (JSNum.fin 100)
        sellingPrice := some (JSNum.fin 180) } }

/-- A pant stocked in size `M` (two pieces). -/
def pantDoc : ProductDoc :=
  { id := "doc2"
    data :=
      { product_id := "B", name := "Pant", sizes := some [("M", 2)]
        availableAmount := 2, price := some (JSNum.fin 150)
        sellingPrice := some (JSNum.fin 260) } }

/-- A small store used in the examples: the shirt, the pant, and no order yet. -/
def sampleStore : Store :=
  { inventory := [shirtDoc, pantDoc], orders := [] }

/-- A confirmation text for a shirt and a pant (buying prices 100 and 150), with 50 paid
in advance and 400 to collect on delivery. -/
def twoItemText : String :=
  "/confirmation\nname: Rahim\naddress: Flat 3: Road 12\nphone: 0170\n" ++
    "product code: A-M, B-M\ndelivery charge: 60\npaid in advance: 50\ncod: 400"

/-- A confirmation text for two sizes of the shirt. -/
def twoSizesText : String :=
  "/confirmation\nname: Rahim\naddress: Road 12\nphone: 0170\n" ++
    "product code: A-M, A-L\ndelivery charge: 60\npaid in advance: 0\ncod: 400"

/-- A confirmation text listing size `M` of the shirt twice. -/
def sameCodeTwiceText : String :=
  "/confirmation\nname: Rahim\naddress: Road 12\nphone: 0170\n" ++
    "product code: A-M, A-M\ndelivery charge: 60\npaid in advance: 0\ncod: 400"

/-- A confirmation text whose second code names a size the pant is not stocked in. -/
def unstockedSizeText : String :=
  "/confirmation\nname: Rahim\naddress: Road 12\nphone: 0170\n" ++
    "product code: A-M, B-XL\ndelivery charge: 60\npaid in advance: 0\ncod: 400"

/-- A confirmation text whose second code has three parts. -/
def threePartText : String :=
  "/confirmation\nname: Rahim\naddress: Road 12\nphone: 0170\n" ++
    "product code: B-M, A-M-X\ndelivery charge: 60\npaid in advance: 0\ncod: 400"

/-- A confirmation text with a delivery charge of 60 and a cod of -5. -/
def negativeCodText : String :=
  "/confirmation\nproduct code: A-M\ndelivery charge: 60\ncod: -5"

/-- A confirmation text listing size `L` of the shirt twice. -/
def sameLargeTwiceText : String :=
  "/confirmation\nname: Rahim\naddress: Road 12\nphone: 0170\n" ++
    "product code: A-L, A-L\ndelivery charge: 60\npaid in advance: 0\ncod: 400"

/-- One iteration together with the store queries it issues through `transaction.get`,
in order: the `product_id` values asked for. The test of the two parts comes first, and
the one query of the iteration is issued only when it passes. -/
def processCodeQueries (db : Store) (st : LoopState) (code : String) :
    List String × Except ConfirmError LoopState :=
  match split code '-' with
  | [] => ([], Except.error (ConfirmError.invalidCode code))
  | [_] => ([], Except.error (ConfirmError.invalidCode code))
  | productId :: size :: _ =>
    if productId = "" ∨ size = "" then ([], Except.error (ConfirmError.invalidCode code))
    else ([trim productId], processCode db st code)

/-- The text of a line before its first `:` (the whole line when it has none). -/
def beforeColon (line : String) : String :=
  String.mk (line.data.takeWhile (fun c => c != ':'))

/-- The text of a line after its first `:` (empty when it has none). -/
def afterColon (line : String) : String :=
  String.mk ((line.data.dropWhile (fun c => c != ':')).drop 1)

/-- The key a line is read under: the trimmed, lower-cased text before its first `:`, or
nothing for a line without `:`. -/
def lineKey (line : String) : Option String :=
  if ':' ∈ line.data then some (toLowerCase (trim (beforeColon line))) else none

/-- The value a line carries: the trimmed text after its first `:`. -/
def lineValue (line : String) : String := trim (afterColon line)

/-- The seven keys the parser recognizes. -/
def recognizedKeys : List String :=
  ["name", "address", "phone", "product code", "delivery charge", "paid in advance", "cod"]

/-- A line the parser ignores: it has no `:`, or its key is not a recognized one. -/
def Ignored (line : String) : Prop :=
  ':' ∉ line.data ∨ toLowerCase (trim (beforeColon line)) ∉ recognizedKeys

instance (line : String) : Decidable (Ignored line) :=
  inferInstanceAs
    (Decidable (':' ∉ line.data ∨ toLowerCase (trim (beforeColon line)) ∉ recognizedKeys))

/-- The value of the last line read under `key`, if there is such a line. -/
def lastValue (key : String) : List String → Option String
  | [] => none
  | l :: ls =>
    match lastValue key ls with
    | some v => some v
    | none => if lineKey l = some key then some (lineValue l) else none

/-- The list of lines with the line `l` inserted at position `i`. -/
def insertLine (lines : List String) (i : Nat) (l : String) : List String :=
  lines.take i ++ l :: lines.drop i

/-- The characters that follow the first piece of a joined list: each further piece with
the separator before it. -/
def sepTail (sep : Char) : List String → List Char
  | [] => []
  | l :: ls => sep :: (l.data ++ sepTail sep ls)

/-- A number that is at least zero: a finite value `≥ 0` or `Infinity`. -/
def JSNum.NonNeg : JSNum → Prop
  | JSNum.fin q => 0 ≤ q
  | JSNum.posInf => True
  | _ => False

/-- The value starts, after leading white space, with a minus sign. -/
def startsWithMinus (value : String) : Bool :=
  (value.data.dropWhile isJSWhiteSpace).head? == some '-'

/-- Number of positions `k, k + 1, …, k + n - 1` that occur among the references `refs`. -/
def touchedFrom (refs : List Nat) : Nat → Nat → Int
  | _, 0 => 0
  | k, n + 1 => (if k ∈ refs then 1 else 0) + touchedFrom refs (k + 1) n

/-- Number of documents of the store referenced by at least one of the updates. -/
def touchedDocs (db : Store) (ups : List InventoryUpdate) : Int :=
  touchedFrom (ups.map (fun u => u.ref)) 0 db.inventory.length

/-! ## Splitting and the shape of one iteration -/

theorem splitChars_ne_nil (sep : Char) (cs : List Char) : splitChars sep cs ≠ [] := by
  cases cs with
  | nil => simp [splitChars]
  | cons c cs =>
    by_cases h : c = sep
    · simp [splitChars, h]
    · cases hs : splitChars sep cs <;> simp [splitChars, h, hs]

theorem split_ne_nil (s : String) (sep : Char) : split s sep ≠ [] := by
  simp [split, splitChars_ne_nil]

/-- One iteration, written with the two parts of the code. -/
theorem processCode_eq (db : Store) (st : LoopState) (code : String) :
    processCode db st code =
      if productIdPart code = "" ∨ sizePart code = "" then
        Except.error (ConfirmError.invalidCode code)
      else
        match queryByProductId db (trim (productIdPart code)) with
        | none => Except.error (ConfirmError.productNotFound (productIdPart code))
        | some (ref, productDoc) =>
          match (productDoc.data.sizes.getD []).lookup (sizeKeyOf code) with
          | none => Except.error (ConfirmError.outOfStock productDoc.data.name (sizeKeyOf code))
          | some q =>
            if q ≤ 0 then
              Except.error (ConfirmError.outOfStock productDoc.data.name (sizeKeyOf code))
            else Except.ok (accept st ref productDoc (sizeKeyOf code)) := by
  unfold processCode productIdPart sizePart sizeKeyOf sizePart
  rcases hs : split code '-' with _ | ⟨p, _ | ⟨s, rest⟩⟩
  · exact absurd hs (split_ne_nil code '-')
  · simp
  · simp only [List.getElem?_cons_zero, List.getElem?_cons_succ, Option.getD_some]
    by_cases hbad : p = "" ∨ s = ""
    · simp [hbad]
    · simp only [hbad, if_false]
      cases hq : queryByProductId db (trim p) with
      | none => rfl
      | some rd =>
        obtain ⟨ref, productDoc⟩ := rd
        simp only []
        cases hl : List.lookup (toUpperCase (trim s)) (productDoc.data.sizes.getD []) with
        | none => rfl
        | some q =>
          simp only []
          by_cases hq0 : q ≤ 0
          · have : q = 0 ∨ q ≤ 0 := Or.inr hq0
            simp [this, hq0]
          · have hne : ¬ q = 0 := fun h => hq0 (by omega)
            simp [hne, hq0, accept, stagedUpdate, orderItem]

/-- A code that is malformed, names no product or names no stock makes its iteration
throw, whatever was accumulated before. -/
theorem processCode_error_of_bad (db : Store) (st : LoopState) (code : String)
    (hbad : Malformed code ∨ NamesNoProduct db code ∨ NamesNoStock db code) :
    ∃ e, processCode db st code = Except.error e := by
  rw [processCode_eq]
  by_cases hm : productIdPart code = "" ∨ sizePart code = ""
  · exact ⟨_, if_pos hm⟩
  · rw [if_neg hm]
    rcases hbad with h | h | ⟨ref, doc, hq, hl⟩
    · exact absurd h hm
    · unfold NamesNoProduct at h
      rw [h]
      exact ⟨_, rfl⟩
    · rw [hq]
      rcases hl with hl | ⟨q, hl, hq0⟩
      · simp only [hl]
        exact ⟨_, rfl⟩
      · simp only [hl, hq0, if_true]
        exact ⟨_, rfl⟩

/-- The three ways a code can be bad are the only ways an iteration throws. -/
theorem processCode_error_iff (db : Store) (st : LoopState) (code : String) :
    (∃ e, processCode db st code = Except.error e) ↔
      (Malformed code ∨ NamesNoProduct db code ∨ NamesNoStock db code) := by
  constructor
  · rintro ⟨e, he⟩
    rw [processCode_eq] at he
    by_cases hm : productIdPart code = "" ∨ sizePart code = ""
    · exact Or.inl hm
    · rw [if_neg hm] at he
      cases hq : queryByProductId db (trim (productIdPart code)) with
      | none => exact Or.inr (Or.inl hq)
      | some rd =>
        obtain ⟨ref, productDoc⟩ := rd
        simp only [hq] at he
        refine Or.inr (Or.inr ⟨ref, productDoc, hq, ?_⟩)
        cases hl : List.lookup (sizeKeyOf code) (productDoc.data.sizes.getD []) with
        | none => exact Or.inl rfl
        | some q =>
          simp only [hl] at he
          by_cases hq0 : q ≤ 0
          · exact Or.inr ⟨q, rfl, hq0⟩
          · rw [if_neg hq0] at he; cases he
  · exact processCode_error_of_bad db st code

/-- The loop throws as soon as one of its codes makes its iteration throw from every
loop state. -/
theorem processCodes_error_of_getElem (db : Store) (codes : List String) :
    ∀ (i : Nat) (code : String) (st : LoopState), codes[i]? = some code →
      (∀ st1, ∃ e, processCode db st1 code = Except.error e) →
      ∃ e, processCodes db st codes = Except.error e := by
  induction codes with
  | nil => intro i code st h; simp at h
  | cons c cs ih =>
    intro i code st h hbad
    unfold processCodes
    cases hc : processCode db st c with
    | error e => exact ⟨e, rfl⟩
    | ok st1 =>
      cases i with
      | zero =>
        simp only [List.getElem?_cons_zero, Option.some.injEq] at h
        subst h
        obtain ⟨e, he⟩ := hbad st
        rw [he] at hc
        cases hc
      | succ j =>
        simp only [List.getElem?_cons_succ] at h
        exact ih j code st1 h hbad

/-! ## Full abort -/

/-- Claim C1, as amended. Full abort: when the `K`-th product code of a request
(`1 ≤ K ≤ N`) is rejected by the test of its two parts (its first part is empty, or its
second part is missing or empty, before trimming), names no stored product, or names a
size that is missing or has a quantity `≤ 0`, the confirmation fails and the store
afterwards is the store before: no inventory document changed and no order was added,
whatever the codes before the `K`-th are. These three cases are the only ones in which
an iteration throws. -/
theorem full_abort (db : Store) (orderDetails : OrderDetails) (recipientId : String)
    (codes : List String) (K : Nat) (code : String)
    (hcodes : orderDetails.productCodes = some codes)
    (hK : 1 ≤ K) (hcode : codes[K - 1]? = some code)
    (hbad : Malformed code ∨ NamesNoProduct db code ∨ NamesNoStock db code) :
    (∃ e, (confirmDetails db orderDetails recipientId).1 = Except.error e) ∧
      (confirmDetails db orderDetails recipientId).2 = db := by
  have _ := hK
  obtain ⟨e, he⟩ :=
    processCodes_error_of_getElem db codes (K - 1) code {} hcode
      (fun st1 => processCode_error_of_bad db st1 code hbad)
  have hbody : transactionBody db orderDetails recipientId = Except.error e := by
    simp [transactionBody, hcodes, he]
  simp [confirmDetails, runTransaction, hbody]

/-- Claim C1, as amended, at a request whose second code names a size the pant is not
stocked in: the first code is valid, the confirmation fails, the store is unchanged. -/
theorem full_abort_witness :
    (parseOrderDetails unstockedSizeText).productCodes = some ["A-M", "B-XL"] ∧
      NamesNoStock sampleStore "B-XL" ∧
      (∃ e, (confirmOrder sampleStore unstockedSizeText "page1").1 = Except.error e) ∧
      (confirmOrder sampleStore unstockedSizeText "page1").2 = sampleStore :=
  ⟨by decide, ⟨1, pantDoc, by decide, Or.inl (by decide)⟩,
    full_abort sampleStore (parseOrderDetails unstockedSizeText) "page1"
      ["A-M", "B-XL"] 2 "B-XL" (by decide) (by decide) (by decide)
      (Or.inr (Or.inr ⟨1, pantDoc, by decide, Or.inl (by decide)⟩))⟩

/-- Claim C1 fails as stated. The second code `A-M-X` of the request does not split into
exactly two parts, so it is malformed in the words of the specification; yet it is not
rejected by the test of the handler, the confirmation succeeds, one order with two items
is added and the stock of the pant and of the shirt is lowered. -/
theorem malformed_code_confirmed :
    (parseOrderDetails threePartText).productCodes = some ["B-M", "A-M-X"] ∧
      SpecMalformed "A-M-X" ∧ ¬ Malformed "A-M-X" ∧
      (confirmOrder sampleStore threePartText "page1").1 = Except.ok () ∧
      (confirmOrder sampleStore threePartText "page1").2 ≠ sampleStore ∧
      (confirmOrder sampleStore threePartText "page1").2.orders.map (fun o => o.items.length) = [2] ∧
      stockAt sampleStore 0 "M" = some 1 ∧
      stockAt (confirmOrder sampleStore threePartText "page1").2 0 "M" = some 0 ∧
      stockAt sampleStore 1 "M" = some 2 ∧
      stockAt (confirmOrder sampleStore threePartText "page1").2 1 "M" = some 1 := by
  with_unfolding_all decide

/-! ## The out-of-stock rule and the invalid-code rule -/

/-- Claim C9. For a code with a non-empty product part and size part whose product is
found, the iteration throws the out-of-stock error exactly when the `sizes` mapping of
the product has no entry for the trimmed, uppercased size part or that entry is `≤ 0`;
in every other case the item is accepted. -/
theorem out_of_stock_rule (db : Store) (st : LoopState) (code : String) (ref : Nat)
    (productDoc : ProductDoc) (hwf : ¬ Malformed code)
    (hfound : queryByProductId db (trim (productIdPart code)) = some (ref, productDoc)) :
    (processCode db st code =
        Except.error (ConfirmError.outOfStock productDoc.data.name (toUpperCase (trim (sizePart code)))) ↔
      ((productDoc.data.sizes.getD []).lookup (toUpperCase (trim (sizePart code))) = none ∨
        ∃ q, (productDoc.data.sizes.getD []).lookup (toUpperCase (trim (sizePart code))) = some q ∧
          q ≤ 0)) ∧
    (¬ ((productDoc.data.sizes.getD []).lookup (toUpperCase (trim (sizePart code))) = none ∨
        ∃ q, (productDoc.data.sizes.getD []).lookup (toUpperCase (trim (sizePart code))) = some q ∧
          q ≤ 0) →
      processCode db st code =
        Except.ok (accept st ref productDoc (toUpperCase (trim (sizePart code))))) := by
  have hm : ¬ (productIdPart code = "" ∨ sizePart code = "") := hwf
  rw [processCode_eq, if_neg hm, hfound]
  simp only [sizeKeyOf]
  cases hl : List.lookup (toUpperCase (trim (sizePart code))) (productDoc.data.sizes.getD []) with
  | none => simp
  | some q =>
    by_cases hq0 : q ≤ 0
    · simp [hq0]
    · simp [hq0]

/-- Claim C9 at the code `A-m` on the sample store, where size `M` of the shirt has
quantity 1: the code is accepted. -/
theorem out_of_stock_rule_witness :
    ¬ Malformed "A-m" ∧
      processCode sampleStore {} "A-m" =
        Except.ok (accept {} 0 shirtDoc "M") :=
  ⟨by decide,
    (out_of_stock_rule sampleStore {} "A-m" 0
      shirtDoc (by decide) (by decide)).2
      (by decide)⟩

/-- Claim C10, as amended. A code whose first part is the empty string, or whose second
part is missing or the empty string, makes its iteration throw the invalid-code error.
The parts are tested as they are, before any trimming. -/
theorem invalid_code_rule (db : Store) (st : LoopState) (code : String)
    (hempty : productIdPart code = "" ∨ sizePart code = "") :
    processCode db st code = Except.error (ConfirmError.invalidCode code) := by
  rw [processCode_eq, if_pos hempty]

/-- Claim C10, as amended, at the codes `-M` (nothing before the dash) and `ABC` (no
dash). -/
theorem invalid_code_rule_witness :
    (productIdPart "-M" = "" ∨ sizePart "-M" = "") ∧
      processCode sampleStore {} "-M" = Except.error (ConfirmError.invalidCode "-M") :=
  ⟨by decide, invalid_code_rule sampleStore {} "-M" (by decide)⟩

/-- Claim C10 fails as stated. The codes ` -M` and `A- -X` each have a part that is empty
once trimmed, yet neither is rejected as an invalid code: the first fails with
product-not-found and the second with out-of-stock. -/
theorem blank_part_not_invalid_code :
    BlankPart " -M" ∧ BlankPart "A- -X" ∧
      processCode sampleStore {} " -M" = Except.error (ConfirmError.productNotFound " ") ∧
      processCode sampleStore {} "A- -X" = Except.error (ConfirmError.outOfStock "Shirt" "") ∧
      processCode sampleStore {} " -M" ≠ Except.error (ConfirmError.invalidCode " -M") ∧
      processCode sampleStore {} "A- -X" ≠ Except.error (ConfirmError.invalidCode "A- -X") :=
  ⟨⟨" ", by decide, by decide⟩, ⟨" ", by decide, by decide⟩, by decide, by decide, by decide,
    by decide⟩

/-! ## Profit -/

theorem setName_advancePaid (key value : String) (details : OrderDetails) :
    (setName key value details).advancePaid = details.advancePaid := by
  unfold setName; split_ifs <;> rfl

theorem setAddress_advancePaid (key value : String) (details : OrderDetails) :
    (setAddress key value details).advancePaid = details.advancePaid := by
  unfold setAddress; split_ifs <;> rfl

theorem setPhone_advancePaid (key value : String) (details : OrderDetails) :
    (setPhone key value details).advancePaid = details.advancePaid := by
  unfold setPhone; split_ifs <;> rfl

theorem setProductCodes_advancePaid (key value : String) (details : OrderDetails) :
    (setProductCodes key value details).advancePaid = details.advancePaid := by
  unfold setProductCodes; split_ifs <;> rfl

theorem setDeliveryCharge_advancePaid (key value : String) (details : OrderDetails) :
    (setDeliveryCharge key value details).advancePaid = details.advancePaid := by
  unfold setDeliveryCharge; split_ifs <;> rfl

theorem setPaidInAdvance_advancePaid (key value : String) (details : OrderDetails) :
    (setPaidInAdvance key value details).advancePaid = details.advancePaid := by
  unfold setPaidInAdvance; split_ifs <;> rfl

theorem setCod_advancePaid (key value : String) (details : OrderDetails) :
    (setCod key value details).advancePaid = details.advancePaid := by
  unfold setCod; split_ifs <;> rfl

theorem parseLine_advancePaid (details : OrderDetails) (line : String) :
    (parseLine details line).advancePaid = details.advancePaid := by
  unfold parseLine
  by_cases h : (split line ':').length < 2
  · simp only [h, if_true]
  · simp only [h, if_false]
    rw [setCod_advancePaid, setPaidInAdvance_advancePaid, setDeliveryCharge_advancePaid,
      setProductCodes_advancePaid, setPhone_advancePaid, setAddress_advancePaid,
      setName_advancePaid]

theorem foldl_parseLine_advancePaid (lines : List String) (details : OrderDetails) :
    (lines.foldl parseLine details).advancePaid = details.advancePaid := by
  induction lines generalizing details with
  | nil => rfl
  | cons l ls ih => rw [List.foldl_cons, ih, parseLine_advancePaid]

/-- The parser never assigns the property `advancePaid` that the profit is computed
from: it assigns `paidInAdvance`. -/
theorem parseOrderDetails_advancePaid (text : String) :
    (parseOrderDetails text).advancePaid = none := by
  unfold parseOrderDetails
  rw [foldl_parseLine_advancePaid]

theorem JSNum.add_nan (a : JSNum) : a.add JSNum.nan = JSNum.nan := by
  cases a <;> rfl

/-- Every order created from a parsed text carries the profit `NaN`. -/
theorem profit_of_parsed_text (db : Store) (text : String) (recipientId : String) (w : Staged)
    (hok : transactionBody db (parseOrderDetails text) recipientId = Except.ok w) :
    w.order.profit = JSNum.nan := by
  unfold transactionBody at hok
  cases hc : (parseOrderDetails text).productCodes with
  | none => simp [hc] at hok
  | some codes =>
    simp only [hc] at hok
    cases hp : processCodes db {} codes with
    | error e => simp [hp] at hok
    | ok st =>
      simp only [hp, Except.ok.injEq] at hok
      subst hok
      simp [parseOrderDetails_advancePaid, toNumber, JSNum.sub, JSNum.neg, JSNum.add_nan]

/-- Claim C2 at its own example. The text orders a shirt and a pant with buying prices
100 and 150, gives 50 as paid in advance and 400 as cod; the confirmation succeeds and
the order records these amounts, but the profit written on it is `NaN`, while
`cod - (sum of buying prices - paid in advance)` is 200. -/
theorem profit_example_is_nan :
    (confirmOrder sampleStore twoItemText "page1").1 = Except.ok () ∧
      (confirmOrder sampleStore twoItemText "page1").2.orders.map
          (fun o => (o.items.map (fun i => i.unitBuyingPrice), o.advancePaid, o.codAmount, o.profit)) =
        [([some (JSNum.fin 100), some (JSNum.fin 150)], some (JSNum.fin 50), some (JSNum.fin 400),
          JSNum.nan)] ∧
      (JSNum.fin 400).sub (((JSNum.fin 100).add (JSNum.fin 150)).sub (JSNum.fin 50)) = JSNum.fin 200 := by
  with_unfolding_all decide

/-! ## Several codes for one product -/

/-- Claim C3 at two distinct codes naming two sizes of the shirt, both in stock. The
confirmation succeeds with two items, but the stored stock is lower by 1, not by 2: size
`M` keeps its quantity 1 and only size `L` goes from 3 to 2. -/
theorem two_sizes_decrement_once :
    (parseOrderDetails twoSizesText).productCodes = some ["A-M", "A-L"] ∧
      (confirmOrder sampleStore twoSizesText "page1").1 = Except.ok () ∧
      (confirmOrder sampleStore twoSizesText "page1").2.orders.map (fun o => o.items.length) = [2] ∧
      totalStock sampleStore - totalStock (confirmOrder sampleStore twoSizesText "page1").2 = 1 ∧
      stockAt sampleStore 0 "M" = some 1 ∧
      stockAt (confirmOrder sampleStore twoSizesText "page1").2 0 "M" = some 1 ∧
      stockAt sampleStore 0 "L" = some 3 ∧
      stockAt (confirmOrder sampleStore twoSizesText "page1").2 0 "L" = some 2 := by
  with_unfolding_all decide

/-- Claim C4 at a request listing size `M` of the shirt twice while one piece is stored.
The confirmation succeeds and the order has two items for that size: more items than
pieces stored. -/
theorem same_code_twice_oversells :
    (parseOrderDetails sameCodeTwiceText).productCodes = some ["A-M", "A-M"] ∧
      stockAt sampleStore 0 "M" = some 1 ∧
      (confirmOrder sampleStore sameCodeTwiceText "page1").1 = Except.ok () ∧
      (confirmOrder sampleStore sameCodeTwiceText "page1").2.orders.map
          (fun o => o.items.map (fun i => (i.productId, i.selectedSizesAndQuantities))) =
        [[("doc1", [("M", 1)]), ("doc1", [("M", 1)])]] ∧
      stockAt (confirmOrder sampleStore sameCodeTwiceText "page1").2 0 "M" = some 0 := by
  with_unfolding_all decide

/-- Claim C5 at a request listing size `L` of the shirt twice while three pieces are
stored. The confirmation succeeds with two separate items, but the stored quantity goes
from 3 to 2: it is lower by 1, not by 2. -/
theorem same_code_twice_decrements_once :
    (parseOrderDetails sameLargeTwiceText).productCodes = some ["A-L", "A-L"] ∧
      stockAt sampleStore 0 "L" = some 3 ∧
      (confirmOrder sampleStore sameLargeTwiceText "page1").1 = Except.ok () ∧
      (confirmOrder sampleStore sameLargeTwiceText "page1").2.orders.map
          (fun o => o.items.map (fun i => (i.productId, i.selectedSizesAndQuantities))) =
        [[("doc1", [("L", 1)]), ("doc1", [("L", 1)])]] ∧
      stockAt (confirmOrder sampleStore sameLargeTwiceText "page1").2 0 "L" = some 2 := by
  with_unfolding_all decide

/-! ## The loop as a whole -/

/-- An iteration that returns has resolved its code and pushed one update and one item. -/
theorem processCode_ok (db : Store) (st st1 : LoopState) (code : String)
    (h : processCode db st code = Except.ok st1) :
    ∃ ref productDoc, Resolves db code ref productDoc ∧
      st1 = accept st ref productDoc (sizeKeyOf code) := by
  rw [processCode_eq] at h
  by_cases hm : productIdPart code = "" ∨ sizePart code = ""
  · rw [if_pos hm] at h; cases h
  · rw [if_neg hm] at h
    cases hq : queryByProductId db (trim (productIdPart code)) with
    | none => rw [hq] at h; cases h
    | some rd =>
      obtain ⟨ref, productDoc⟩ := rd
      simp only [hq] at h
      cases hl : List.lookup (sizeKeyOf code) (productDoc.data.sizes.getD []) with
      | none => rw [hl] at h; cases h
      | some q =>
        rw [hl] at h
        simp only [] at h
        by_cases hq0 : q ≤ 0
        · rw [if_pos hq0] at h; cases h
        · rw [if_neg hq0] at h
          refine ⟨ref, productDoc, ⟨hm, hq, q, hl, by omega⟩, ?_⟩
          cases h
          rfl

/-- A loop that returns has appended, code by code, the update and the item of the
document each code resolves to. -/
theorem processCodes_ok (db : Store) (codes : List String) :
    ∀ (st st1 : LoopState), processCodes db st codes = Except.ok st1 →
      ∃ ups items,
        st1.inventoryUpdates = st.inventoryUpdates ++ ups ∧
        st1.orderItems = st.orderItems ++ items ∧
        List.Forall₂
          (fun code u => ∃ ref doc, Resolves db code ref doc ∧ u = stagedUpdate ref doc (sizeKeyOf code))
          codes ups ∧
        List.Forall₂
          (fun code item => ∃ ref doc, Resolves db code ref doc ∧ item = orderItem doc (sizeKeyOf code))
          codes items := by
  induction codes with
  | nil =>
    intro st st1 h
    simp only [processCodes, Except.ok.injEq] at h
    subst h
    exact ⟨[], [], by simp, by simp, List.Forall₂.nil, List.Forall₂.nil⟩
  | cons c cs ih =>
    intro st st1 h
    unfold processCodes at h
    cases hc : processCode db st c with
    | error e => rw [hc] at h; cases h
    | ok st2 =>
      rw [hc] at h
      simp only [] at h
      obtain ⟨ref, doc, hres, hst2⟩ := processCode_ok db st st2 c hc
      obtain ⟨ups, items, hu, hi, fu, fi⟩ := ih st2 st1 h
      refine ⟨stagedUpdate ref doc (sizeKeyOf c) :: ups, orderItem doc (sizeKeyOf c) :: items,
        ?_, ?_, List.Forall₂.cons ⟨ref, doc, hres, rfl⟩ fu, List.Forall₂.cons ⟨ref, doc, hres, rfl⟩ fi⟩
      · rw [hu, hst2]; simp [accept]
      · rw [hi, hst2]; simp [accept]

theorem forall₂_getElem? {α β : Type} {R : α → β → Prop} {l₁ : List α} {l₂ : List β}
    (h : List.Forall₂ R l₁ l₂) :
    ∀ (i : Nat) (a : α), l₁[i]? = some a → ∃ b, l₂[i]? = some b ∧ R a b := by
  induction h with
  | nil => intro i a hi; simp at hi
  | cons hab _ ih =>
    intro i a hi
    cases i with
    | zero =>
      simp only [List.getElem?_cons_zero, Option.some.injEq] at hi
      subst hi
      exact ⟨_, by simp, hab⟩
    | succ j =>
      simp only [List.getElem?_cons_succ] at hi
      obtain ⟨b, hb, hr⟩ := ih j a hi
      exact ⟨b, by simpa using hb, hr⟩

theorem forall₂_mem_right {α β : Type} {R : α → β → Prop} {l₁ : List α} {l₂ : List β}
    (h : List.Forall₂ R l₁ l₂) : ∀ b ∈ l₂, ∃ a ∈ l₁, R a b := by
  induction h with
  | nil => intro b hb; simp at hb
  | cons hab _ ih =>
    intro b hb
    rcases List.mem_cons.1 hb with rfl | hb
    · exact ⟨_, List.mem_cons_self _ _, hab⟩
    · obtain ⟨a, ha, hr⟩ := ih b hb
      exact ⟨a, List.mem_cons_of_mem _ ha, hr⟩

theorem forall₂_mem_left {α β : Type} {R : α → β → Prop} {l₁ : List α} {l₂ : List β}
    (h : List.Forall₂ R l₁ l₂) : ∀ a ∈ l₁, ∃ b ∈ l₂, R a b := by
  induction h with
  | nil => intro a ha; simp at ha
  | cons hab _ ih =>
    intro a ha
    rcases List.mem_cons.1 ha with rfl | ha
    · exact ⟨_, List.mem_cons_self _ _, hab⟩
    · obtain ⟨b, hb, hr⟩ := ih a ha
      exact ⟨b, List.mem_cons_of_mem _ hb, hr⟩

/-- What a successful callback has staged. -/
theorem transactionBody_ok (db : Store) (orderDetails : OrderDetails) (recipientId : String)
    (codes : List String) (w : Staged) (hcodes : orderDetails.productCodes = some codes)
    (h : transactionBody db orderDetails recipientId = Except.ok w) :
    List.Forall₂
        (fun code u => ∃ ref doc, Resolves db code ref doc ∧ u = stagedUpdate ref doc (sizeKeyOf code))
        codes w.updates ∧
      List.Forall₂
        (fun code item => ∃ ref doc, Resolves db code ref doc ∧ item = orderItem doc (sizeKeyOf code))
        codes w.order.items := by
  unfold transactionBody at h
  simp only [hcodes] at h
  cases hp : processCodes db {} codes with
  | error e => rw [hp] at h; cases h
  | ok st =>
    rw [hp] at h
    simp only [Except.ok.injEq] at h
    obtain ⟨ups, items, hu, hi, fu, fi⟩ := processCodes_ok db codes {} st hp
    subst h
    simp only [List.nil_append] at hu hi
    simp only [hu, hi]
    exact ⟨fu, fi⟩

/-- A confirmation succeeds exactly when the callback returns its staged writes, and the
store afterwards is then their commit. -/
theorem confirmDetails_ok (db : Store) (orderDetails : OrderDetails) (recipientId : String)
    (h : (confirmDetails db orderDetails recipientId).1 = Except.ok ()) :
    ∃ w, transactionBody db orderDetails recipientId = Except.ok w ∧
      (confirmDetails db orderDetails recipientId).2 = commit db w := by
  unfold confirmDetails runTransaction at h ⊢
  cases hb : transactionBody db orderDetails recipientId with
  | error e => simp [hb] at h
  | ok w => exact ⟨w, rfl, by simp [hb]⟩

theorem productCodes_of_ok (db : Store) (orderDetails : OrderDetails) (recipientId : String)
    (w : Staged) (h : transactionBody db orderDetails recipientId = Except.ok w) :
    ∃ codes, orderDetails.productCodes = some codes := by
  unfold transactionBody at h
  cases hc : orderDetails.productCodes with
  | none => simp [hc] at h
  | some codes => exact ⟨codes, rfl⟩

/-! ## The commit -/

theorem queryFrom_some (productId : String) (ds : List ProductDoc) :
    ∀ (i r : Nat) (d : ProductDoc), queryFrom productId ds i = some (r, d) →
      i ≤ r ∧ ds[r - i]? = some d := by
  induction ds with
  | nil => intro i r d h; simp [queryFrom] at h
  | cons x xs ih =>
    intro i r d h
    unfold queryFrom at h
    by_cases hx : x.data.product_id = productId
    · rw [if_pos hx] at h
      simp only [Option.some.injEq, Prod.mk.injEq] at h
      obtain ⟨rfl, rfl⟩ := h
      simp
    · rw [if_neg hx] at h
      obtain ⟨hle, hget⟩ := ih (i + 1) r d h
      refine ⟨by omega, ?_⟩
      have hr : r - i = (r - (i + 1)) + 1 := by omega
      rw [hr, List.getElem?_cons_succ]
      exact hget

/-- The reference returned by the query is the position of the returned document. -/
theorem queryByProductId_getElem? (db : Store) (productId : String) (ref : Nat)
    (doc : ProductDoc) (h : queryByProductId db productId = some (ref, doc)) :
    db.inventory[ref]? = some doc := by
  have := (queryFrom_some productId db.inventory 0 ref doc h).2
  simpa using this

theorem applyUpdate_length (inventory : List ProductDoc) (u : InventoryUpdate) :
    (applyUpdate inventory u).length = inventory.length := by
  unfold applyUpdate
  cases inventory[u.ref]? <;> simp

theorem foldl_applyUpdate_length (ups : List InventoryUpdate) :
    ∀ inventory : List ProductDoc, (ups.foldl applyUpdate inventory).length = inventory.length := by
  induction ups with
  | nil => intro inventory; rfl
  | cons u us ih =>
    intro inventory
    rw [List.foldl_cons, ih, applyUpdate_length]

/-- One update leaves every other document as it was and replaces the two fields of the
referenced one. -/
theorem applyUpdate_getElem? (inventory : List ProductDoc) (u : InventoryUpdate) (r : Nat)
    (d0 : ProductDoc) (h : inventory[r]? = some d0) :
    ∃ d, (applyUpdate inventory u)[r]? = some d ∧
      ((u.ref ≠ r ∧ d = d0) ∨
        (u.ref = r ∧ d.data.sizes = some u.sizes ∧ d.data.availableAmount = u.availableAmount)) := by
  unfold applyUpdate
  by_cases hr : u.ref = r
  · have hu : inventory[u.ref]? = some d0 := by rw [hr]; exact h
    have hlt : u.ref < inventory.length := by
      rcases Nat.lt_or_ge u.ref inventory.length with hlt | hge
      · exact hlt
      · rw [List.getElem?_eq_none hge] at hu; cases hu
    simp only [hu]
    refine ⟨{ d0 with
        data := { d0.data with sizes := some u.sizes, availableAmount := u.availableAmount } },
      ?_, Or.inr ⟨hr, rfl, rfl⟩⟩
    rw [← hr]
    exact List.getElem?_set_self hlt
  · cases hu : inventory[u.ref]? with
    | none => exact ⟨d0, h, Or.inl ⟨hr, rfl⟩⟩
    | some du =>
      simp only []
      refine ⟨d0, ?_, Or.inl ⟨hr, rfl⟩⟩
      rw [List.getElem?_set_ne hr]
      exact h

/-- After the commit of a list of updates, a document is either untouched and as it was,
or carries the two fields of one of the updates that reference it. -/
theorem foldl_applyUpdate_getElem? (ups : List InventoryUpdate) :
    ∀ (inventory : List ProductDoc) (r : Nat) (d0 : ProductDoc), inventory[r]? = some d0 →
      ∃ d, (ups.foldl applyUpdate inventory)[r]? = some d ∧
        ((d = d0 ∧ ∀ u ∈ ups, u.ref ≠ r) ∨
          ∃ u ∈ ups, u.ref = r ∧ d.data.sizes = some u.sizes ∧
            d.data.availableAmount = u.availableAmount) := by
  induction ups with
  | nil =>
    intro inventory r d0 h
    exact ⟨d0, h, Or.inl ⟨rfl, by simp⟩⟩
  | cons u us ih =>
    intro inventory r d0 h
    obtain ⟨d1, hd1, hcase⟩ := applyUpdate_getElem? inventory u r d0 h
    obtain ⟨d, hd, hrest⟩ := ih (applyUpdate inventory u) r d1 hd1
    refine ⟨d, by rw [List.foldl_cons]; exact hd, ?_⟩
    rcases hrest with ⟨hdd, hno⟩ | ⟨u1, hu1, hw⟩
    · rcases hcase with ⟨hne, hd0⟩ | ⟨href, hs, ha⟩
      · left
        refine ⟨by rw [hdd, hd0], ?_⟩
        intro u2 hu2
        rcases List.mem_cons.1 hu2 with rfl | hu2
        · exact hne
        · exact hno u2 hu2
      · right
        exact ⟨u, List.mem_cons_self _ _, href, by rw [hdd]; exact hs, by rw [hdd]; exact ha⟩
    · right
      exact ⟨u1, List.mem_cons_of_mem _ hu1, hw⟩

theorem decrementSize_nonneg (sizes : List (String × Int)) (sizeKey : String) (q : Int)
    (hl : sizes.lookup sizeKey = some q) (hq : 0 < q) (hm : ∀ kv ∈ sizes, 0 ≤ kv.2) :
    ∀ kv ∈ decrementSize sizes sizeKey, 0 ≤ kv.2 := by
  induction sizes with
  | nil => simp at hl
  | cons x xs ih =>
    obtain ⟨k, v⟩ := x
    unfold decrementSize
    by_cases hk : k = sizeKey
    · subst hk
      rw [if_pos rfl]
      simp only [List.lookup_cons, beq_self_eq_true, Option.some.injEq] at hl
      subst hl
      intro kv hkv
      rcases List.mem_cons.1 hkv with rfl | hkv
      · show 0 ≤ v - 1
        omega
      · exact hm kv (List.mem_cons_of_mem _ hkv)
    · rw [if_neg hk]
      have hbeq : (sizeKey == k) = false := by
        simp only [beq_eq_false_iff_ne, ne_eq]
        exact fun h => hk h.symm
      simp only [List.lookup_cons, hbeq] at hl
      intro kv hkv
      rcases List.mem_cons.1 hkv with rfl | hkv
      · exact hm _ (List.mem_cons_self _ _)
      · exact ih hl (fun kv hkv => hm kv (List.mem_cons_of_mem _ hkv)) kv hkv

/-- After the commit, the document referenced by a staged update carries the sizes and the
amount of some staged update whose amount is the sum of its sizes. -/
theorem commit_amount (db : Store) (codes : List String) (ups : List InventoryUpdate)
    (hups : List.Forall₂
      (fun code u => ∃ ref doc, Resolves db code ref doc ∧ u = stagedUpdate ref doc (sizeKeyOf code))
      codes ups)
    (u : InventoryUpdate) (hu : u ∈ ups) :
    ∃ d, (ups.foldl applyUpdate db.inventory)[u.ref]? = some d ∧ AmountIsSum d := by
  obtain ⟨code, _, ref, doc, hres, hueq⟩ := forall₂_mem_right hups u hu
  have hdoc : db.inventory[u.ref]? = some doc := by
    rw [hueq]
    exact queryByProductId_getElem? db _ ref doc hres.2.1
  obtain ⟨d, hd, hcase⟩ := foldl_applyUpdate_getElem? ups db.inventory u.ref doc hdoc
  refine ⟨d, hd, ?_⟩
  rcases hcase with ⟨_, hno⟩ | ⟨u1, hu1, _, hs, ha⟩
  · exact absurd rfl (hno u hu)
  · obtain ⟨code1, _, ref1, doc1, _, hu1eq⟩ := forall₂_mem_right hups u1 hu1
    unfold AmountIsSum
    rw [hs, ha, hu1eq]
    rfl

/-! ## The amount invariant -/

/-- Claim C6. After a successful confirmation, every product that received an update has
an `availableAmount` equal to the sum of the quantities of its `sizes` as stored after
the commit, whatever the amount was before. The products that received an update are
those referenced by the staged updates, which are those the codes of the request resolve
to. -/
theorem availableAmount_recomputed (db : Store) (orderDetails : OrderDetails)
    (recipientId : String) (codes : List String)
    (hcodes : orderDetails.productCodes = some codes)
    (hok : (confirmDetails db orderDetails recipientId).1 = Except.ok ()) :
    (∀ w, transactionBody db orderDetails recipientId = Except.ok w → ∀ u ∈ w.updates,
        ∃ d, (confirmDetails db orderDetails recipientId).2.inventory[u.ref]? = some d ∧
          AmountIsSum d) ∧
      (∀ code ∈ codes, ∀ ref doc,
        queryByProductId db (trim (productIdPart code)) = some (ref, doc) →
        ∃ d, (confirmDetails db orderDetails recipientId).2.inventory[ref]? = some d ∧
          AmountIsSum d) := by
  obtain ⟨w, hw, hstore⟩ := confirmDetails_ok db orderDetails recipientId hok
  obtain ⟨fu, _⟩ := transactionBody_ok db orderDetails recipientId codes w hcodes hw
  rw [hstore]
  constructor
  · intro w1 hw1 u hu
    rw [hw] at hw1
    cases hw1
    exact commit_amount db codes w.updates fu u hu
  · intro code hcode ref doc hq
    obtain ⟨u, hu, ref1, doc1, hres, hueq⟩ := forall₂_mem_left fu code hcode
    have href : u.ref = ref := by
      rw [hueq]
      have := hres.2.1
      rw [hq] at this
      simp only [Option.some.injEq, Prod.mk.injEq] at this
      exact this.1.symm
    rw [← href]
    exact commit_amount db codes w.updates fu u hu

/-- Claim C6 at the request for two sizes of the shirt: after the confirmation the shirt's
`availableAmount` is the sum of its stored sizes. -/
theorem availableAmount_recomputed_witness :
    (confirmOrder sampleStore twoSizesText "page1").1 = Except.ok () ∧
      ∃ d, (confirmOrder sampleStore twoSizesText "page1").2.inventory[0]? = some d ∧
        AmountIsSum d :=
  ⟨by decide,
    (availableAmount_recomputed sampleStore (parseOrderDetails twoSizesText) "page1"
      ["A-M", "A-L"] (by decide) (by decide)).2 "A-M" (by decide) 0 shirtDoc (by decide)⟩

/-! ## Stock stays non-negative -/

/-- Claim C7. If every stored quantity is at least zero before a confirmation, the same
holds after it, whether the confirmation succeeds or fails. Quantities are integers in
the model. -/
theorem stock_stays_nonneg (db : Store) (orderDetails : OrderDetails) (recipientId : String)
    (h : NonNegStock db) : NonNegStock (confirmDetails db orderDetails recipientId).2 := by
  cases hb : transactionBody db orderDetails recipientId with
  | error e =>
    have : (confirmDetails db orderDetails recipientId).2 = db := by
      simp [confirmDetails, runTransaction, hb]
    rw [this]
    exact h
  | ok w =>
    have hstore : (confirmDetails db orderDetails recipientId).2 = commit db w := by
      simp [confirmDetails, runTransaction, hb]
    obtain ⟨codes, hcodes⟩ := productCodes_of_ok db orderDetails recipientId w hb
    obtain ⟨fu, _⟩ := transactionBody_ok db orderDetails recipientId codes w hcodes hb
    rw [hstore]
    intro d hd kv hkv
    obtain ⟨r, hr, hget⟩ := List.getElem_of_mem hd
    have hlen : r < db.inventory.length := by
      have := foldl_applyUpdate_length w.updates db.inventory
      simp only [commit] at hr
      omega
    have hd0 : db.inventory[r]? = some (db.inventory[r]) := List.getElem?_eq_getElem hlen
    obtain ⟨d1, hd1, hcase⟩ := foldl_applyUpdate_getElem? w.updates db.inventory r _ hd0
    have hdd : d1 = d := by
      have h2 : (commit db w).inventory[r]? = some d := by
        rw [List.getElem?_eq_getElem hr, hget]
      simp only [commit] at h2
      rw [hd1] at h2
      exact Option.some.inj h2
    subst hdd
    rcases hcase with ⟨heq, _⟩ | ⟨u, hu, _, hs, _⟩
    · rw [heq] at hkv
      exact h _ (List.getElem_mem hlen) kv hkv
    · obtain ⟨code, _, ref, doc, hres, hueq⟩ := forall₂_mem_right fu u hu
      obtain ⟨_, hq, q, hl, hq0⟩ := hres
      have hdoc : doc ∈ db.inventory :=
        List.getElem?_mem (queryByProductId_getElem? db _ ref doc hq)
      rw [hs, hueq] at hkv
      exact decrementSize_nonneg _ _ q hl hq0 (h doc hdoc) kv hkv

/-- Claim C7 at the two-item request on the sample store. -/
theorem stock_stays_nonneg_witness :
    NonNegStock sampleStore ∧ NonNegStock (confirmOrder sampleStore twoItemText "page1").2 :=
  ⟨by decide, stock_stays_nonneg sampleStore (parseOrderDetails twoItemText) "page1" (by decide)⟩

/-! ## The shape of the order -/

/-- Claim C8. A successful confirmation of a request with `N` product codes adds exactly
one order to the store. Its `items` has length `N`, and its `i`-th item is built from the
document the `i`-th code resolves to. The fields of the item are, in order: the document
identifier, the product name, quantity 1 under the trimmed, uppercased size, the
document's `sellingPrice` as unit selling price and again as line total, and its `price`
as unit buying price. -/
theorem order_shape (db : Store) (orderDetails : OrderDetails) (recipientId : String)
    (codes : List String) (hcodes : orderDetails.productCodes = some codes)
    (hok : (confirmDetails db orderDetails recipientId).1 = Except.ok ()) :
    ∃ order, (confirmDetails db orderDetails recipientId).2.orders = db.orders ++ [order] ∧
      order.items.length = codes.length ∧
      ∀ (i : Nat) (code : String), codes[i]? = some code →
        ∃ ref doc, queryByProductId db (trim (productIdPart code)) = some (ref, doc) ∧
          order.items[i]? =
            some
              (OrderItem.mk doc.id doc.data.name [(toUpperCase (trim (sizePart code)), 1)]
                doc.data.sellingPrice doc.data.sellingPrice doc.data.price) := by
  obtain ⟨w, hw, hstore⟩ := confirmDetails_ok db orderDetails recipientId hok
  obtain ⟨_, fi⟩ := transactionBody_ok db orderDetails recipientId codes w hcodes hw
  refine ⟨w.order, by rw [hstore]; rfl, fi.length_eq.symm, ?_⟩
  intro i code hi
  obtain ⟨item, hitem, ref, doc, hres, hieq⟩ := forall₂_getElem? fi i code hi
  exact ⟨ref, doc, hres.2.1, by rw [hitem, hieq]; rfl⟩

/-- Claim C8 at the two-item request on the sample store: one order is added and its
second item is built from the pant. -/
theorem order_shape_witness :
    (confirmOrder sampleStore twoItemText "page1").1 = Except.ok () ∧
      ∃ order, (confirmOrder sampleStore twoItemText "page1").2.orders = sampleStore.orders ++ [order] ∧
        order.items.length = 2 ∧
        ∀ (i : Nat) (code : String), ["A-M", "B-M"][i]? = some code →
          ∃ ref doc, queryByProductId sampleStore (trim (productIdPart code)) = some (ref, doc) ∧
            order.items[i]? =
              some
                (OrderItem.mk doc.id doc.data.name [(toUpperCase (trim (sizePart code)), 1)]
                  doc.data.sellingPrice doc.data.sellingPrice doc.data.price) :=
  ⟨by decide,
    order_shape sampleStore (parseOrderDetails twoItemText) "page1" ["A-M", "B-M"] (by decide)
      (by decide)⟩

/-! ## Codes with extra parts, and the queries of an iteration -/

/-- An iteration is decided by the first two parts of its code alone, apart from the code
quoted in the invalid-code error. -/
theorem processCode_congr (db : Store) (st : LoopState) (code code2 : String)
    (hp : productIdPart code2 = productIdPart code) (hs : sizePart code2 = sizePart code) :
    (∀ st1, processCode db st code = Except.ok st1 ↔ processCode db st code2 = Except.ok st1) ∧
      (∀ e, (∀ c, e ≠ ConfirmError.invalidCode c) →
        (processCode db st code = Except.error e ↔ processCode db st code2 = Except.error e)) ∧
      (processCode db st code = Except.error (ConfirmError.invalidCode code) ↔
        processCode db st code2 = Except.error (ConfirmError.invalidCode code2)) := by
  have hk : sizeKeyOf code2 = sizeKeyOf code := by unfold sizeKeyOf; rw [hs]
  rw [processCode_eq db st code, processCode_eq db st code2, hp, hs, hk]
  by_cases hm : productIdPart code = "" ∨ sizePart code = ""
  · simp only [if_pos hm]
    refine ⟨fun st1 => by simp, fun e he => ?_, by simp⟩
    constructor
    · intro h
      simp only [Except.error.injEq] at h
      exact absurd h.symm (he code)
    · intro h
      simp only [Except.error.injEq] at h
      exact absurd h.symm (he code2)
  · simp only [if_neg hm]
    refine ⟨fun st1 => ?_, fun e _ => ?_, ?_⟩
    · trivial
    · trivial
    cases hq : queryByProductId db (trim (productIdPart code)) with
    | none => simp
    | some rd =>
      obtain ⟨ref, productDoc⟩ := rd
      simp only []
      cases hl : List.lookup (sizeKeyOf code) (productDoc.data.sizes.getD []) with
      | none => simp
      | some q =>
        simp only []
        by_cases hq0 : q ≤ 0
        · simp [hq0]
        · simp [hq0]

/-- Claim C11, as amended. A product code is accepted only if the first two parts obtained
by splitting it on `-` are non-empty. Parts after the second play no role: every code
with the same first two parts is accepted with the same result, so a code with more
than one `-` is resolved from its first two parts. -/
theorem accepted_code_parts (db : Store) (st st1 : LoopState) (code : String)
    (h : processCode db st code = Except.ok st1) :
    productIdPart code ≠ "" ∧ sizePart code ≠ "" ∧
      ∀ code2, productIdPart code2 = productIdPart code → sizePart code2 = sizePart code →
        processCode db st code2 = Except.ok st1 := by
  obtain ⟨ref, productDoc, ⟨hm, _, _⟩, _⟩ := processCode_ok db st st1 code h
  have hm2 : ¬ (productIdPart code = "" ∨ sizePart code = "") := hm
  refine ⟨fun hp => hm2 (Or.inl hp), fun hs => hm2 (Or.inr hs), ?_⟩
  intro code2 hp hs
  exact ((processCode_congr db st code code2 hp hs).1 st1).1 h

/-- Claim C11, as amended, at the code `A-M` on the sample store: it is accepted, and so
is `A-M-X`, with the same result. -/
theorem accepted_code_parts_witness :
    processCode sampleStore {} "A-M" = Except.ok (accept {} 0 shirtDoc "M") ∧
      processCode sampleStore {} "A-M-X" = Except.ok (accept {} 0 shirtDoc "M") :=
  ⟨by with_unfolding_all decide,
    (accepted_code_parts sampleStore {} (accept {} 0 shirtDoc "M") "A-M"
      (by with_unfolding_all decide)).2.2 "A-M-X" (by decide) (by decide)⟩

/-- Claim C11 fails as stated. The code `A-M-X` splits into three parts and is accepted,
resolved from its first two parts; the code `TS-001-M` is looked up as product `TS` and
fails with product-not-found, not as an invalid code. -/
theorem three_part_code_not_invalid :
    (split "A-M-X" '-').length = 3 ∧
      processCode sampleStore {} "A-M-X" = Except.ok (accept {} 0 shirtDoc "M") ∧
      (split "TS-001-M" '-').length = 3 ∧
      processCode sampleStore {} "TS-001-M" = Except.error (ConfirmError.productNotFound "TS") ∧
      processCode sampleStore {} "TS-001-M" ≠ Except.error (ConfirmError.invalidCode "TS-001-M") := by
  with_unfolding_all decide

theorem splitChars_of_not_mem (sep : Char) (cs : List Char) (h : sep ∉ cs) :
    splitChars sep cs = [cs] := by
  induction cs with
  | nil => rfl
  | cons c cs ih =>
    have hc : c ≠ sep := fun hc => h (by rw [hc]; exact List.mem_cons_self _ _)
    have hcs : sep ∉ cs := fun hcs => h (List.mem_cons_of_mem _ hcs)
    simp [splitChars, hc, ih hcs]

theorem splitChars_append (sep : Char) (a b : List Char) (h : sep ∉ a) :
    splitChars sep (a ++ sep :: b) = a :: splitChars sep b := by
  induction a with
  | nil => simp [splitChars]
  | cons c cs ih =>
    have hc : c ≠ sep := fun hc => h (by rw [hc]; exact List.mem_cons_self _ _)
    have hcs : sep ∉ cs := fun hcs => h (List.mem_cons_of_mem _ hcs)
    simp [splitChars, hc, ih hcs]

/-- The log of an iteration does not change what the iteration returns. -/
theorem processCodeQueries_snd (db : Store) (st : LoopState) (code : String) :
    (processCodeQueries db st code).2 = processCode db st code := by
  unfold processCodeQueries
  rcases hs : split code '-' with _ | ⟨p, _ | ⟨s, rest⟩⟩
  · exact absurd hs (split_ne_nil code '-')
  · simp [processCode, hs]
  · by_cases hbad : p = "" ∨ s = ""
    · simp [processCode, hs, hbad]
    · simp [hbad]

/-- An iteration whose code passes the test of the two parts issues exactly one query,
for the trimmed product part. -/
theorem processCodeQueries_fst (db : Store) (st : LoopState) (code : String)
    (h : ¬ Malformed code) :
    (processCodeQueries db st code).1 = [trim (productIdPart code)] := by
  have hm : ¬ (productIdPart code = "" ∨ sizePart code = "") := h
  unfold processCodeQueries
  unfold productIdPart
  unfold productIdPart sizePart at hm
  rcases hs : split code '-' with _ | ⟨p, _ | ⟨s, rest⟩⟩
  · exact absurd hs (split_ne_nil code '-')
  · rw [hs] at hm; simp at hm
  · rw [hs] at hm
    simp only [List.getElem?_cons_zero, List.getElem?_cons_succ, Option.getD_some] at hm ⊢
    simp [hm]

/-- Claim C18. A code with no `-`, or with nothing before its first `-`, fails with the
invalid-code error, and the iteration has issued no store query when it fails. -/
theorem malformed_fails_before_query (db : Store) (st : LoopState) (code : String)
    (h : '-' ∉ code.data ∨ productIdPart code = "") :
    processCode db st code = Except.error (ConfirmError.invalidCode code) ∧
      processCodeQueries db st code = ([], Except.error (ConfirmError.invalidCode code)) := by
  have hm : productIdPart code = "" ∨ sizePart code = "" := by
    rcases h with h | h
    · right
      unfold sizePart split
      rw [splitChars_of_not_mem '-' code.data h]
      rfl
    · exact Or.inl h
  have h1 : processCode db st code = Except.error (ConfirmError.invalidCode code) := by
    rw [processCode_eq, if_pos hm]
  refine ⟨h1, ?_⟩
  unfold processCodeQueries
  unfold productIdPart sizePart at hm
  rcases hs : split code '-' with _ | ⟨p, _ | ⟨s, rest⟩⟩
  · rfl
  · rfl
  · rw [hs] at hm
    simp only [List.getElem?_cons_zero, List.getElem?_cons_succ, Option.getD_some] at hm
    simp [hm]

/-- Claim C18 at the codes of the claim: `ABC` has no `-` and `-M` has an empty product
part; both fail as invalid codes with an empty query log. -/
theorem malformed_fails_before_query_witness :
    ('-' ∉ "ABC".data ∨ productIdPart "ABC" = "") ∧
      processCodeQueries sampleStore {} "ABC" =
        ([], Except.error (ConfirmError.invalidCode "ABC")) ∧
      processCodeQueries sampleStore {} "-M" = ([], Except.error (ConfirmError.invalidCode "-M")) :=
  ⟨by decide, (malformed_fails_before_query sampleStore {} "ABC" (by decide)).2,
    (malformed_fails_before_query sampleStore {} "-M" (by decide)).2⟩

/-! ## Size-key normalization -/

/-- The two parts of a code built from a product id and a size without `-`. -/
theorem parts_of_code (p sz : String) (hp : '-' ∉ p.data) (hs : '-' ∉ sz.data) :
    productIdPart (p ++ "-" ++ sz) = p ∧ sizePart (p ++ "-" ++ sz) = sz := by
  have hdata : (p ++ "-" ++ sz).data = p.data ++ '-' :: sz.data := by
    simp [String.data_append]
  have hsplit : split (p ++ "-" ++ sz) '-' = [p, sz] := by
    unfold split
    rw [hdata, splitChars_append '-' p.data sz.data hp, splitChars_of_not_mem '-' sz.data hs]
    rfl
  unfold productIdPart sizePart
  rw [hsplit]
  exact ⟨rfl, rfl⟩

/-- Claim C14, as amended. For a product id `p` and non-empty size strings `s1`, `s2`
(none of them containing `-`) that are equal after trimming and uppercasing, the codes
`p-s1` and `p-s2` are looked up under the same size key, the trimmed uppercase label.
They are accepted with the same result (the same staged decrement and item), and they
fail with the same error, the invalid-code error quoting each its own code. -/
theorem size_key_normalization (db : Store) (st : LoopState) (p s1 s2 : String)
    (hp : '-' ∉ p.data) (hs1 : '-' ∉ s1.data) (hs2 : '-' ∉ s2.data)
    (hne1 : s1 ≠ "") (hne2 : s2 ≠ "")
    (heq : toUpperCase (trim s1) = toUpperCase (trim s2)) :
    sizeKeyOf (p ++ "-" ++ s1) = toUpperCase (trim s1) ∧
      sizeKeyOf (p ++ "-" ++ s2) = toUpperCase (trim s1) ∧
      (∀ st1, processCode db st (p ++ "-" ++ s1) = Except.ok st1 ↔
        processCode db st (p ++ "-" ++ s2) = Except.ok st1) ∧
      (∀ e, (∀ c, e ≠ ConfirmError.invalidCode c) →
        (processCode db st (p ++ "-" ++ s1) = Except.error e ↔
          processCode db st (p ++ "-" ++ s2) = Except.error e)) ∧
      (processCode db st (p ++ "-" ++ s1) = Except.error (ConfirmError.invalidCode (p ++ "-" ++ s1)) ↔
        processCode db st (p ++ "-" ++ s2) =
          Except.error (ConfirmError.invalidCode (p ++ "-" ++ s2))) := by
  obtain ⟨hp1, hz1⟩ := parts_of_code p s1 hp hs1
  obtain ⟨hp2, hz2⟩ := parts_of_code p s2 hp hs2
  have hk1 : sizeKeyOf (p ++ "-" ++ s1) = toUpperCase (trim s1) := by
    unfold sizeKeyOf; rw [hz1]
  have hk2 : sizeKeyOf (p ++ "-" ++ s2) = toUpperCase (trim s1) := by
    unfold sizeKeyOf; rw [hz2, heq]
  refine ⟨hk1, hk2, ?_⟩
  rw [processCode_eq db st (p ++ "-" ++ s1), processCode_eq db st (p ++ "-" ++ s2), hp1, hp2,
    hz1, hz2, hk1, hk2]
  by_cases hpe : p = ""
  · have h1 : p = "" ∨ s1 = "" := Or.inl hpe
    have h2 : p = "" ∨ s2 = "" := Or.inl hpe
    simp only [if_pos h1, if_pos h2]
    refine ⟨fun st1 => by simp, fun e he => ?_, by simp⟩
    constructor
    · intro h
      simp only [Except.error.injEq] at h
      exact absurd h.symm (he _)
    · intro h
      simp only [Except.error.injEq] at h
      exact absurd h.symm (he _)
  · have h1 : ¬ (p = "" ∨ s1 = "") := fun h => h.elim hpe hne1
    have h2 : ¬ (p = "" ∨ s2 = "") := fun h => h.elim hpe hne2
    simp only [if_neg h1, if_neg h2]
    refine ⟨fun st1 => ?_, fun e _ => ?_, ?_⟩
    · trivial
    · trivial
    cases hq : queryByProductId db (trim p) with
    | none => simp
    | some rd =>
      obtain ⟨ref, productDoc⟩ := rd
      simp only []
      cases hl : List.lookup (toUpperCase (trim s1)) (productDoc.data.sizes.getD []) with
      | none => simp
      | some q =>
        simp only []
        by_cases hq0 : q ≤ 0
        · simp [hq0]
        · simp [hq0]

/-- Claim C14, as amended, at the sizes `m` and `M ` of the shirt: both codes are looked
up under the key `M` and both are accepted with the same result. -/
theorem size_key_normalization_witness :
    toUpperCase (trim "m") = toUpperCase (trim "M ") ∧
      sizeKeyOf ("A" ++ "-" ++ "m") = "M" ∧ sizeKeyOf ("A" ++ "-" ++ "M ") = "M" ∧
      (processCode sampleStore {} ("A" ++ "-" ++ "m") = Except.ok (accept {} 0 shirtDoc "M") ↔
        processCode sampleStore {} ("A" ++ "-" ++ "M ") = Except.ok (accept {} 0 shirtDoc "M")) :=
  ⟨by decide,
    (size_key_normalization sampleStore {} "A" "m" "M " (by decide) (by decide) (by decide)
      (by decide) (by decide) (by decide)).1,
    (size_key_normalization sampleStore {} "A" "m" "M " (by decide) (by decide) (by decide)
      (by decide) (by decide) (by decide)).2.1,
    (size_key_normalization sampleStore {} "A" "m" "M " (by decide) (by decide) (by decide)
      (by decide) (by decide) (by decide)).2.2.1 _⟩

/-- Claim C14 fails as stated. The size strings `""` and `" "` are equal after trimming
and uppercasing, yet the code `A-` is rejected as an invalid code before any size is
looked up, while `A- ` passes that test and fails as out of stock under the key `""`.
And for the size strings `m-x` and `M-X`, equal after trimming and uppercasing, the
codes are looked up under the key `M`, not under the trimmed uppercase label `M-X`. -/
theorem size_normalization_edge_cases :
    toUpperCase (trim "") = toUpperCase (trim " ") ∧
      processCode sampleStore {} ("A" ++ "-" ++ "") = Except.error (ConfirmError.invalidCode "A-") ∧
      processCode sampleStore {} ("A" ++ "-" ++ " ") =
        Except.error (ConfirmError.outOfStock "Shirt" "") ∧
      toUpperCase (trim "m-x") = toUpperCase (trim "M-X") ∧
      sizeKeyOf ("A" ++ "-" ++ "m-x") = "M" ∧
      toUpperCase (trim "m-x") = "M-X" := by
  decide

/-! ## Splitting and joining -/

theorem mk_append_mk (a b : List Char) : String.mk a ++ String.mk b = String.mk (a ++ b) := rfl

theorem intercalate_go_eq_foldl (sep : String) (parts : List String) :
    ∀ acc : String,
      String.intercalate.go acc sep parts = parts.foldl (fun acc a => acc ++ sep ++ a) acc := by
  induction parts with
  | nil => intro acc; rfl
  | cons a as ih => intro acc; simp only [String.intercalate.go, List.foldl_cons, ih]

/-- The pieces of a split, the first one apart, folded back with the separator. -/
theorem foldl_splitChars (sep : Char) (cs : List Char) :
    ∀ (acc p : List Char) (rest : List (List Char)), splitChars sep cs = p :: rest →
      (rest.map String.mk).foldl (fun acc a => acc ++ String.mk [sep] ++ a) (String.mk (acc ++ p)) =
        String.mk (acc ++ cs) := by
  induction cs with
  | nil =>
    intro acc p rest h
    simp only [splitChars, List.cons.injEq] at h
    obtain ⟨rfl, rfl⟩ := h
    rfl
  | cons c cs ih =>
    intro acc p rest h
    obtain ⟨p1, rest1, h1⟩ : ∃ p1 rest1, splitChars sep cs = p1 :: rest1 := by
      cases hs : splitChars sep cs with
      | nil => exact absurd hs (splitChars_ne_nil sep cs)
      | cons p1 rest1 => exact ⟨p1, rest1, rfl⟩
    by_cases hc : c = sep
    · simp only [splitChars, hc, if_true, List.cons.injEq] at h
      obtain ⟨rfl, rfl⟩ := h
      rw [h1]
      simp only [List.map_cons, List.foldl_cons, mk_append_mk, List.append_nil]
      have := ih (acc ++ [sep]) p1 rest1 h1
      rw [hc]
      simpa [List.append_assoc] using this
    · simp only [splitChars, hc, if_false, h1, List.cons.injEq] at h
      obtain ⟨rfl, rfl⟩ := h
      have := ih (acc ++ [c]) p1 rest1 h1
      simpa [List.append_assoc] using this

/-- Joining the pieces of a split with the separator gives the text back. -/
theorem join_splitChars (sep : Char) (cs : List Char) :
    join ((splitChars sep cs).map String.mk) (String.mk [sep]) = String.mk cs := by
  unfold join
  cases hs : splitChars sep cs with
  | nil => exact absurd hs (splitChars_ne_nil sep cs)
  | cons p rest =>
    simp only [List.map_cons, String.intercalate, intercalate_go_eq_foldl]
    have := foldl_splitChars sep cs [] p rest hs
    simpa using this

/-- The first piece of a split is the text before the first separator, and the other
pieces are the split of the text after it. -/
theorem splitChars_of_mem (sep : Char) (cs : List Char) (h : sep ∈ cs) :
    splitChars sep cs =
      cs.takeWhile (fun c => c != sep) ::
        splitChars sep ((cs.dropWhile (fun c => c != sep)).drop 1) := by
  induction cs with
  | nil => simp at h
  | cons c cs ih =>
    by_cases hc : c = sep
    · simp [splitChars, hc]
    · have hcs : sep ∈ cs := by
        rcases List.mem_cons.1 h with h | h
        · exact absurd h.symm hc
        · exact h
      have hne : (c != sep) = true := by simp [hc]
      simp only [splitChars, hc, if_false, ih hcs, List.takeWhile_cons, hne, if_true,
        List.dropWhile_cons]

/-- The parts of a line with a `:`: the text before the first `:`, then the split of the
text after it. -/
theorem split_colon (line : String) (h : ':' ∈ line.data) :
    split line ':' =
      beforeColon line :: (splitChars ':' (afterColon line).data).map String.mk := by
  unfold split
  rw [splitChars_of_mem ':' line.data h]
  rfl

/-- The loop body on a line with a `:`: the seven assignments run with the key read
before the first `:` and the value read after it. -/
theorem parseLine_of_colon (details : OrderDetails) (line : String) (h : ':' ∈ line.data) :
    parseLine details line =
      setCod (toLowerCase (trim (beforeColon line))) (lineValue line)
        (setPaidInAdvance (toLowerCase (trim (beforeColon line))) (lineValue line)
          (setDeliveryCharge (toLowerCase (trim (beforeColon line))) (lineValue line)
            (setProductCodes (toLowerCase (trim (beforeColon line))) (lineValue line)
              (setPhone (toLowerCase (trim (beforeColon line))) (lineValue line)
                (setAddress (toLowerCase (trim (beforeColon line))) (lineValue line)
                  (setName (toLowerCase (trim (beforeColon line))) (lineValue line)
                    details)))))) := by
  have hlen : ¬ (split line ':').length < 2 := by
    rw [split_colon line h]
    have := splitChars_ne_nil ':' (afterColon line).data
    cases hs : splitChars ':' (afterColon line).data with
    | nil => exact absurd hs this
    | cons a as => simp
  have hval : trim (join ((split line ':').drop 1) ":") = lineValue line := by
    rw [split_colon line h]
    simp only [List.drop_succ_cons, List.drop_zero]
    have := join_splitChars ':' (afterColon line).data
    unfold lineValue
    rw [show (":" : String) = String.mk [':'] from rfl, this]
  have hkey : (split line ':').headD "" = beforeColon line := by
    rw [split_colon line h]
    rfl
  unfold parseLine
  simp only [hlen, if_false, hval, hkey]

/-- The loop body skips a line without `:`. -/
theorem parseLine_of_no_colon (details : OrderDetails) (line : String) (h : ':' ∉ line.data) :
    parseLine details line = details := by
  have hlen : (split line ':').length < 2 := by
    unfold split
    rw [splitChars_of_not_mem ':' line.data h]
    simp
  unfold parseLine
  simp only [hlen, if_true]

/-! ## What each assignment does to each property -/

theorem setName_name (key value : String) (details : OrderDetails) :
    (setName key value details).name = if key = "name" then some value else details.name := by
  unfold setName; split_ifs <;> rfl

theorem setName_address (key value : String) (details : OrderDetails) :
    (setName key value details).address = details.address := by
  unfold setName; split_ifs <;> rfl

theorem setName_phone (key value : String) (details : OrderDetails) :
    (setName key value details).phone = details.phone := by
  unfold setName; split_ifs <;> rfl

theorem setName_productCodes (key value : String) (details : OrderDetails) :
    (setName key value details).productCodes = details.productCodes := by
  unfold setName; split_ifs <;> rfl

theorem setName_deliveryCharge (key value : String) (details : OrderDetails) :
    (setName key value details).deliveryCharge = details.deliveryCharge := by
  unfold setName; split_ifs <;> rfl

theorem setName_paidInAdvance (key value : String) (details : OrderDetails) :
    (setName key value details).paidInAdvance = details.paidInAdvance := by
  unfold setName; split_ifs <;> rfl

theorem setName_cod (key value : String) (details : OrderDetails) :
    (setName key value details).cod = details.cod := by
  unfold setName; split_ifs <;> rfl

theorem setAddress_name (key value : String) (details : OrderDetails) :
    (setAddress key value details).name = details.name := by
  unfold setAddress; split_ifs <;> rfl

theorem setAddress_address (key value : String) (details : OrderDetails) :
    (setAddress key value details).address = if key = "address" then some value else details.address := by
  unfold setAddress; split_ifs <;> rfl

theorem setAddress_phone (key value : String) (details : OrderDetails) :
    (setAddress key value details).phone = details.phone := by
  unfold setAddress; split_ifs <;> rfl

theorem setAddress_productCodes (key value : String) (details : OrderDetails) :
    (setAddress key value details).productCodes = details.productCodes := by
  unfold setAddress; split_ifs <;> rfl

theorem setAddress_deliveryCharge (key value : String) (details : OrderDetails) :
    (setAddress key value details).deliveryCharge = details.deliveryCharge := by
  unfold setAddress; split_ifs <;> rfl

theorem setAddress_paidInAdvance (key value : String) (details : OrderDetails) :
    (setAddress key value details).paidInAdvance = details.paidInAdvance := by
  unfold setAddress; split_ifs <;> rfl

theorem setAddress_cod (key value : String) (details : OrderDetails) :
    (setAddress key value details).cod = details.cod := by
  unfold setAddress; split_ifs <;> rfl

theorem setPhone_name (key value : String) (details : OrderDetails) :
    (setPhone key value details).name = details.name := by
  unfold setPhone; split_ifs <;> rfl

theorem setPhone_address (key value : String) (details : OrderDetails) :
    (setPhone key value details).address = details.address := by
  unfold setPhone; split_ifs <;> rfl

theorem setPhone_phone (key value : String) (details : OrderDetails) :
    (setPhone key value details).phone = if key = "phone" then some value else details.phone := by
  unfold setPhone; split_ifs <;> rfl

theorem setPhone_productCodes (key value : String) (details : OrderDetails) :
    (setPhone key value details).productCodes = details.productCodes := by
  unfold setPhone; split_ifs <;> rfl

theorem setPhone_deliveryCharge (key value : String) (details : OrderDetails) :
    (setPhone key value details).deliveryCharge = details.deliveryCharge := by
  unfold setPhone; split_ifs <;> rfl

theorem setPhone_paidInAdvance (key value : String) (details : OrderDetails) :
    (setPhone key value details).paidInAdvance = details.paidInAdvance := by
  unfold setPhone; split_ifs <;> rfl

theorem setPhone_cod (key value : String) (details : OrderDetails) :
    (setPhone key value details).cod = details.cod := by
  unfold setPhone; split_ifs <;> rfl

theorem setProductCodes_name (key value : String) (details : OrderDetails) :
    (setProductCodes key value details).name = details.name := by
  unfold setProductCodes; split_ifs <;> rfl

theorem setProductCodes_address (key value : String) (details : OrderDetails) :
    (setProductCodes key value details).address = details.address := by
  unfold setProductCodes; split_ifs <;> rfl

theorem setProductCodes_phone (key value : String) (details : OrderDetails) :
    (setProductCodes key value details).phone = details.phone := by
  unfold setProductCodes; split_ifs <;> rfl

theorem setProductCodes_productCodes (key value : String) (details : OrderDetails) :
    (setProductCodes key value details).productCodes = if key = "product code" then some ((split value ',').map trim) else details.productCodes := by
  unfold setProductCodes; split_ifs <;> rfl

theorem setProductCodes_deliveryCharge (key value : String) (details : OrderDetails) :
    (setProductCodes key value details).deliveryCharge = details.deliveryCharge := by
  unfold setProductCodes; split_ifs <;> rfl

theorem setProductCodes_paidInAdvance (key value : String) (details : OrderDetails) :
    (setProductCodes key value details).paidInAdvance = details.paidInAdvance := by
  unfold setProductCodes; split_ifs <;> rfl

theorem setProductCodes_cod (key value : String) (details : OrderDetails) :
    (setProductCodes key value details).cod = details.cod := by
  unfold setProductCodes; split_ifs <;> rfl

theorem setDeliveryCharge_name (key value : String) (details : OrderDetails) :
    (setDeliveryCharge key value details).name = details.name := by
  unfold setDeliveryCharge; split_ifs <;> rfl

theorem setDeliveryCharge_address (key value : String) (details : OrderDetails) :
    (setDeliveryCharge key value details).address = details.address := by
  unfold setDeliveryCharge; split_ifs <;> rfl

theorem setDeliveryCharge_phone (key value : String) (details : OrderDetails) :
    (setDeliveryCharge key value details).phone = details.phone := by
  unfold setDeliveryCharge; split_ifs <;> rfl

theorem setDeliveryCharge_productCodes (key value : String) (details : OrderDetails) :
    (setDeliveryCharge key value details).productCodes = details.productCodes := by
  unfold setDeliveryCharge; split_ifs <;> rfl

theorem setDeliveryCharge_deliveryCharge (key value : String) (details : OrderDetails) :
    (setDeliveryCharge key value details).deliveryCharge = if key = "delivery charge" then some (orZero (some (parseFloat value))) else details.deliveryCharge := by
  unfold setDeliveryCharge; split_ifs <;> rfl

theorem setDeliveryCharge_paidInAdvance (key value : String) (details : OrderDetails) :
    (setDeliveryCharge key value details).paidInAdvance = details.paidInAdvance := by
  unfold setDeliveryCharge; split_ifs <;> rfl

theorem setDeliveryCharge_cod (key value : String) (details : OrderDetails) :
    (setDeliveryCharge key value details).cod = details.cod := by
  unfold setDeliveryCharge; split_ifs <;> rfl

theorem setPaidInAdvance_name (key value : String) (details : OrderDetails) :
    (setPaidInAdvance key value details).name = details.name := by
  unfold setPaidInAdvance; split_ifs <;> rfl

theorem setPaidInAdvance_address (key value : String) (details : OrderDetails) :
    (setPaidInAdvance key value details).address = details.address := by
  unfold setPaidInAdvance; split_ifs <;> rfl

theorem setPaidInAdvance_phone (key value : String) (details : OrderDetails) :
    (setPaidInAdvance key value details).phone = details.phone := by
  unfold setPaidInAdvance; split_ifs <;> rfl

theorem setPaidInAdvance_productCodes (key value : String) (details : OrderDetails) :
    (setPaidInAdvance key value details).productCodes = details.productCodes := by
  unfold setPaidInAdvance; split_ifs <;> rfl

theorem setPaidInAdvance_deliveryCharge (key value : String) (details : OrderDetails) :
    (setPaidInAdvance key value details).deliveryCharge = details.deliveryCharge := by
  unfold setPaidInAdvance; split_ifs <;> rfl

theorem setPaidInAdvance_paidInAdvance (key value : String) (details : OrderDetails) :
    (setPaidInAdvance key value details).paidInAdvance = if key = "paid in advance" then some (orZero (some (parseFloat value))) else details.paidInAdvance := by
  unfold setPaidInAdvance; split_ifs <;> rfl

theorem setPaidInAdvance_cod (key value : String) (details : OrderDetails) :
    (setPaidInAdvance key value details).cod = details.cod := by
  unfold setPaidInAdvance; split_ifs <;> rfl

theorem setCod_name (key value : String) (details : OrderDetails) :
    (setCod key value details).name = details.name := by
  unfold setCod; split_ifs <;> rfl

theorem setCod_address (key value : String) (details : OrderDetails) :
    (setCod key value details).address = details.address := by
  unfold setCod; split_ifs <;> rfl

theorem setCod_phone (key value : String) (details : OrderDetails) :
    (setCod key value details).phone = details.phone := by
  unfold setCod; split_ifs <;> rfl

theorem setCod_productCodes (key value : String) (details : OrderDetails) :
    (setCod key value details).productCodes = details.productCodes := by
  unfold setCod; split_ifs <;> rfl

theorem setCod_deliveryCharge (key value : String) (details : OrderDetails) :
    (setCod key value details).deliveryCharge = details.deliveryCharge := by
  unfold setCod; split_ifs <;> rfl

theorem setCod_paidInAdvance (key value : String) (details : OrderDetails) :
    (setCod key value details).paidInAdvance = details.paidInAdvance := by
  unfold setCod; split_ifs <;> rfl

theorem setCod_cod (key value : String) (details : OrderDetails) :
    (setCod key value details).cod = if key = "cod" then some (orZero (some (parseFloat value))) else details.cod := by
  unfold setCod; split_ifs <;> rfl

/-! ## What a line does to each property -/

/-- A line assigns `name` exactly when its key is `name`. -/
theorem parseLine_name (details : OrderDetails) (line : String) :
    (parseLine details line).name =
      if lineKey line = some "name" then some (lineValue line) else details.name := by
  by_cases h : ':' ∈ line.data
  · rw [parseLine_of_colon details line h]
    simp only [setCod_name, setPaidInAdvance_name, setDeliveryCharge_name, setProductCodes_name, setPhone_name, setAddress_name, setName_name, lineKey, h, if_true, Option.some.injEq]
  · rw [parseLine_of_no_colon details line h]
    simp [lineKey, h]

/-- A line assigns `address` exactly when its key is `address`. -/
theorem parseLine_address (details : OrderDetails) (line : String) :
    (parseLine details line).address =
      if lineKey line = some "address" then some (lineValue line) else details.address := by
  by_cases h : ':' ∈ line.data
  · rw [parseLine_of_colon details line h]
    simp only [setCod_address, setPaidInAdvance_address, setDeliveryCharge_address, setProductCodes_address, setPhone_address, setAddress_address, setName_address, lineKey, h, if_true, Option.some.injEq]
  · rw [parseLine_of_no_colon details line h]
    simp [lineKey, h]

/-- A line assigns `phone` exactly when its key is `phone`. -/
theorem parseLine_phone (details : OrderDetails) (line : String) :
    (parseLine details line).phone =
      if lineKey line = some "phone" then some (lineValue line) else details.phone := by
  by_cases h : ':' ∈ line.data
  · rw [parseLine_of_colon details line h]
    simp only [setCod_phone, setPaidInAdvance_phone, setDeliveryCharge_phone, setProductCodes_phone, setPhone_phone, setAddress_phone, setName_phone, lineKey, h, if_true, Option.some.injEq]
  · rw [parseLine_of_no_colon details line h]
    simp [lineKey, h]

/-- A line assigns `productCodes` exactly when its key is `product code`. -/
theorem parseLine_productCodes (details : OrderDetails) (line : String) :
    (parseLine details line).productCodes =
      if lineKey line = some "product code" then some ((split (lineValue line) ',').map trim) else details.productCodes := by
  by_cases h : ':' ∈ line.data
  · rw [parseLine_of_colon details line h]
    simp only [setCod_productCodes, setPaidInAdvance_productCodes, setDeliveryCharge_productCodes, setProductCodes_productCodes, setPhone_productCodes, setAddress_productCodes, setName_productCodes, lineKey, h, if_true, Option.some.injEq]
  · rw [parseLine_of_no_colon details line h]
    simp [lineKey, h]

/-- A line assigns `deliveryCharge` exactly when its key is `delivery charge`. -/
theorem parseLine_deliveryCharge (details : OrderDetails) (line : String) :
    (parseLine details line).deliveryCharge =
      if lineKey line = some "delivery charge" then some (orZero (some (parseFloat (lineValue line)))) else details.deliveryCharge := by
  by_cases h : ':' ∈ line.data
  · rw [parseLine_of_colon details line h]
    simp only [setCod_deliveryCharge, setPaidInAdvance_deliveryCharge, setDeliveryCharge_deliveryCharge, setProductCodes_deliveryCharge, setPhone_deliveryCharge, setAddress_deliveryCharge, setName_deliveryCharge, lineKey, h, if_true, Option.some.injEq]
  · rw [parseLine_of_no_colon details line h]
    simp [lineKey, h]

/-- A line assigns `paidInAdvance` exactly when its key is `paid in advance`. -/
theorem parseLine_paidInAdvance (details : OrderDetails) (line : String) :
    (parseLine details line).paidInAdvance =
      if lineKey line = some "paid in advance" then some (orZero (some (parseFloat (lineValue line)))) else details.paidInAdvance := by
  by_cases h : ':' ∈ line.data
  · rw [parseLine_of_colon details line h]
    simp only [setCod_paidInAdvance, setPaidInAdvance_paidInAdvance, setDeliveryCharge_paidInAdvance, setProductCodes_paidInAdvance, setPhone_paidInAdvance, setAddress_paidInAdvance, setName_paidInAdvance, lineKey, h, if_true, Option.some.injEq]
  · rw [parseLine_of_no_colon details line h]
    simp [lineKey, h]

/-- A line assigns `cod` exactly when its key is `cod`. -/
theorem parseLine_cod (details : OrderDetails) (line : String) :
    (parseLine details line).cod =
      if lineKey line = some "cod" then some (orZero (some (parseFloat (lineValue line)))) else details.cod := by
  by_cases h : ':' ∈ line.data
  · rw [parseLine_of_colon details line h]
    simp only [setCod_cod, setPaidInAdvance_cod, setDeliveryCharge_cod, setProductCodes_cod, setPhone_cod, setAddress_cod, setName_cod, lineKey, h, if_true, Option.some.injEq]
  · rw [parseLine_of_no_colon details line h]
    simp [lineKey, h]

/-! ## What a text does to each property -/

/-- A property assigned under one key holds, after the lines are read in order, the value
of the last line with that key, or what it held before when there is no such line. -/
theorem foldl_parseLine_field {α : Type} (proj : OrderDetails → Option α) (key : String)
    (g : String → α)
    (hstep : ∀ details line, proj (parseLine details line) =
      if lineKey line = some key then some (g (lineValue line)) else proj details) :
    ∀ (lines : List String) (details : OrderDetails),
      proj (lines.foldl parseLine details) =
        match lastValue key lines with
        | some v => some (g v)
        | none => proj details := by
  intro lines
  induction lines with
  | nil => intro details; rfl
  | cons l ls ih =>
    intro details
    have hcons : lastValue key (l :: ls) =
        match lastValue key ls with
        | some v => some v
        | none => if lineKey l = some key then some (lineValue l) else none := rfl
    rw [List.foldl_cons, ih (parseLine details l), hcons]
    cases hl : lastValue key ls with
    | some v => rfl
    | none =>
      simp only []
      rw [hstep]
      by_cases hk : lineKey l = some key
      · simp [hk]
      · simp [hk]

/-- The property `name` of a parsed text, from the last line with the key `name`. -/
theorem parseOrderDetails_name (text : String) :
    (parseOrderDetails text).name =
      (lastValue "name" (split text '\n')).map (fun value => value) := by
  unfold parseOrderDetails
  rw [foldl_parseLine_field (fun d => d.name) "name" (fun value => value)
    (fun details line => parseLine_name details line)]
  cases lastValue "name" (split text '\n') <;> rfl

/-- The property `address` of a parsed text, from the last line with the key `address`. -/
theorem parseOrderDetails_address (text : String) :
    (parseOrderDetails text).address =
      (lastValue "address" (split text '\n')).map (fun value => value) := by
  unfold parseOrderDetails
  rw [foldl_parseLine_field (fun d => d.address) "address" (fun value => value)
    (fun details line => parseLine_address details line)]
  cases lastValue "address" (split text '\n') <;> rfl

/-- The property `phone` of a parsed text, from the last line with the key `phone`. -/
theorem parseOrderDetails_phone (text : String) :
    (parseOrderDetails text).phone =
      (lastValue "phone" (split text '\n')).map (fun value => value) := by
  unfold parseOrderDetails
  rw [foldl_parseLine_field (fun d => d.phone) "phone" (fun value => value)
    (fun details line => parseLine_phone details line)]
  cases lastValue "phone" (split text '\n') <;> rfl

/-- The property `productCodes` of a parsed text, from the last line with the key `product code`. -/
theorem parseOrderDetails_productCodes (text : String) :
    (parseOrderDetails text).productCodes =
      (lastValue "product code" (split text '\n')).map (fun value => ((split value ',').map trim)) := by
  unfold parseOrderDetails
  rw [foldl_parseLine_field (fun d => d.productCodes) "product code" (fun value => ((split value ',').map trim))
    (fun details line => parseLine_productCodes details line)]
  cases lastValue "product code" (split text '\n') <;> rfl

/-- The property `deliveryCharge` of a parsed text, from the last line with the key `delivery charge`. -/
theorem parseOrderDetails_deliveryCharge (text : String) :
    (parseOrderDetails text).deliveryCharge =
      (lastValue "delivery charge" (split text '\n')).map (fun value => (orZero (some (parseFloat value)))) := by
  unfold parseOrderDetails
  rw [foldl_parseLine_field (fun d => d.deliveryCharge) "delivery charge" (fun value => (orZero (some (parseFloat value))))
    (fun details line => parseLine_deliveryCharge details line)]
  cases lastValue "delivery charge" (split text '\n') <;> rfl

/-- The property `paidInAdvance` of a parsed text, from the last line with the key `paid in advance`. -/
theorem parseOrderDetails_paidInAdvance (text : String) :
    (parseOrderDetails text).paidInAdvance =
      (lastValue "paid in advance" (split text '\n')).map (fun value => (orZero (some (parseFloat value)))) := by
  unfold parseOrderDetails
  rw [foldl_parseLine_field (fun d => d.paidInAdvance) "paid in advance" (fun value => (orZero (some (parseFloat value))))
    (fun details line => parseLine_paidInAdvance details line)]
  cases lastValue "paid in advance" (split text '\n') <;> rfl

/-- The property `cod` of a parsed text, from the last line with the key `cod`. -/
theorem parseOrderDetails_cod (text : String) :
    (parseOrderDetails text).cod =
      (lastValue "cod" (split text '\n')).map (fun value => (orZero (some (parseFloat value)))) := by
  unfold parseOrderDetails
  rw [foldl_parseLine_field (fun d => d.cod) "cod" (fun value => (orZero (some (parseFloat value))))
    (fun details line => parseLine_cod details line)]
  cases lastValue "cod" (split text '\n') <;> rfl

/-! ## Values keep their colons -/

/-- Claim C13. For every line with a `:`, the key is the trimmed, lower-cased text before
the first `:` and the value is the whole remainder of the line after that first `:`,
further `:` characters included, then trimmed. Under each recognized key the property
is assigned from that value. -/
theorem value_keeps_colons (details : OrderDetails) (line : String) (h : ':' ∈ line.data) :
    (toLowerCase (trim (beforeColon line)) = "name" →
        (parseLine details line).name = some (trim (afterColon line))) ∧
      (toLowerCase (trim (beforeColon line)) = "address" →
        (parseLine details line).address = some (trim (afterColon line))) ∧
      (toLowerCase (trim (beforeColon line)) = "phone" →
        (parseLine details line).phone = some (trim (afterColon line))) ∧
      (toLowerCase (trim (beforeColon line)) = "product code" →
        (parseLine details line).productCodes =
          some ((split (trim (afterColon line)) ',').map trim)) ∧
      (toLowerCase (trim (beforeColon line)) = "delivery charge" →
        (parseLine details line).deliveryCharge =
          some (orZero (some (parseFloat (trim (afterColon line)))))) ∧
      (toLowerCase (trim (beforeColon line)) = "paid in advance" →
        (parseLine details line).paidInAdvance =
          some (orZero (some (parseFloat (trim (afterColon line)))))) ∧
      (toLowerCase (trim (beforeColon line)) = "cod" →
        (parseLine details line).cod =
          some (orZero (some (parseFloat (trim (afterColon line)))))) := by
  have hk : ∀ key, toLowerCase (trim (beforeColon line)) = key → lineKey line = some key := by
    intro key hkey
    simp [lineKey, h, hkey]
  refine ⟨fun hkey => ?_, fun hkey => ?_, fun hkey => ?_, fun hkey => ?_, fun hkey => ?_,
    fun hkey => ?_, fun hkey => ?_⟩
  · rw [parseLine_name, if_pos (hk _ hkey)]; rfl
  · rw [parseLine_address, if_pos (hk _ hkey)]; rfl
  · rw [parseLine_phone, if_pos (hk _ hkey)]; rfl
  · rw [parseLine_productCodes, if_pos (hk _ hkey)]; rfl
  · rw [parseLine_deliveryCharge, if_pos (hk _ hkey)]; rfl
  · rw [parseLine_paidInAdvance, if_pos (hk _ hkey)]; rfl
  · rw [parseLine_cod, if_pos (hk _ hkey)]; rfl

/-- Claim C13 at the line of the claim: `address: Flat 3: Road 12` sets the address to
`Flat 3: Road 12`. -/
theorem value_keeps_colons_witness :
    ':' ∈ "address: Flat 3: Road 12".data ∧
      afterColon "address: Flat 3: Road 12" = " Flat 3: Road 12" ∧
      (parseLine {} "address: Flat 3: Road 12").address = some "Flat 3: Road 12" :=
  ⟨by decide, by decide,
    (value_keeps_colons {} "address: Flat 3: Road 12" (by decide)).2.1 (by decide)⟩

/-! ## Amounts -/

/-- Claim C12, as amended. The parser is a total function: every text, the empty one
included, gives a result. Each of `deliveryCharge`, `paidInAdvance` and `cod` is left
undefined when no line has its key (no default is assigned), and is otherwise
`parseFloat(value) || 0` for the value of the last line with its key, which is 0 when
that value is unparseable. The property `advancePaid` is never assigned. -/
theorem parse_amounts (text : String) :
    (parseOrderDetails text).deliveryCharge =
        (lastValue "delivery charge" (split text '\n')).map
          (fun value => orZero (some (parseFloat value))) ∧
      (parseOrderDetails text).paidInAdvance =
        (lastValue "paid in advance" (split text '\n')).map
          (fun value => orZero (some (parseFloat value))) ∧
      (parseOrderDetails text).cod =
        (lastValue "cod" (split text '\n')).map (fun value => orZero (some (parseFloat value))) ∧
      (parseOrderDetails text).advancePaid = none ∧
      orZero (some JSNum.nan) = JSNum.fin 0 :=
  ⟨parseOrderDetails_deliveryCharge text, parseOrderDetails_paidInAdvance text,
    parseOrderDetails_cod text, parseOrderDetails_advancePaid text, rfl⟩

/-- Claim C12 fails as stated. For the empty text, and for a text with no recognized key,
the three amounts are undefined, not 0; an unparseable value does give 0. -/
theorem absent_amounts_undefined :
    (parseOrderDetails "").deliveryCharge = none ∧
      (parseOrderDetails "").paidInAdvance = none ∧
      (parseOrderDetails "").cod = none ∧
      (parseOrderDetails "hello\ncolor: red").cod = none ∧
      (parseOrderDetails "").cod ≠ some (JSNum.fin 0) ∧
      (parseOrderDetails "cod: abc").cod = some (JSNum.fin 0) := by
  with_unfolding_all decide

theorem pow10_nonneg (e : Int) : 0 ≤ pow10 e := by
  unfold pow10
  split_ifs <;> positivity

theorem parseUnsigned_nonneg (cs : List Char) :
    parseUnsigned cs = JSNum.nan ∨ (parseUnsigned cs).NonNeg := by
  unfold parseUnsigned
  by_cases hinf : "Infinity".data.isPrefixOf cs = true
  · rw [if_pos hinf]
    exact Or.inr trivial
  · rw [if_neg hinf]
    simp only []
    split
    · split_ifs
      · exact Or.inl rfl
      · right
        show (0 : ℚ) ≤ _
        exact mul_nonneg (div_nonneg (Nat.cast_nonneg _) (by positivity)) (pow10_nonneg _)
    · split_ifs
      · exact Or.inl rfl
      · right
        show (0 : ℚ) ≤ _
        exact mul_nonneg (Nat.cast_nonneg _) (pow10_nonneg _)

theorem orZero_nonneg (n : JSNum) (h : n = JSNum.nan ∨ n.NonNeg) :
    (orZero (some n)).NonNeg := by
  unfold orZero
  rcases h with h | h
  · subst h
    show (0 : ℚ) ≤ 0
    exact le_refl _
  · simp only []
    split_ifs
    · exact h
    · show (0 : ℚ) ≤ 0
      exact le_refl _

theorem orZero_ne_nan (n : JSNum) : orZero (some n) ≠ JSNum.nan := by
  unfold orZero
  simp only []
  split_ifs with h
  · intro hn
    rw [hn] at h
    exact absurd h (by decide)
  · intro hn; cases hn

/-- An amount read from a value that does not start with a minus sign is at least zero. -/
theorem amount_nonneg_of_no_minus (value : String) (h : startsWithMinus value = false) :
    (orZero (some (parseFloat value))).NonNeg := by
  apply orZero_nonneg
  unfold parseFloat
  unfold startsWithMinus at h
  split
  · exact parseUnsigned_nonneg _
  · rename_i cs heq
    rw [heq] at h
    simp at h
  · exact parseUnsigned_nonneg _

/-- Claim C16, as amended. For every text and for each of `deliveryCharge`,
`paidInAdvance` and `cod` separately: the amount produced by the parser is at least zero
whenever the value on the last line with its key does not start with a minus sign,
whatever the other lines carry. No sign test is made: a value such as `-5` yields the
amount -5. -/
theorem amounts_nonneg_without_minus (text : String) :
    (∀ v x, lastValue "delivery charge" (split text '\n') = some v → startsWithMinus v = false →
        (parseOrderDetails text).deliveryCharge = some x → x.NonNeg) ∧
      (∀ v x, lastValue "paid in advance" (split text '\n') = some v → startsWithMinus v = false →
        (parseOrderDetails text).paidInAdvance = some x → x.NonNeg) ∧
      (∀ v x, lastValue "cod" (split text '\n') = some v → startsWithMinus v = false →
        (parseOrderDetails text).cod = some x → x.NonNeg) := by
  refine ⟨fun v x hl hm hx => ?_, fun v x hl hm hx => ?_, fun v x hl hm hx => ?_⟩
  · rw [parseOrderDetails_deliveryCharge, hl] at hx
    simp only [Option.map_some', Option.some.injEq] at hx
    rw [← hx]
    exact amount_nonneg_of_no_minus v hm
  · rw [parseOrderDetails_paidInAdvance, hl] at hx
    simp only [Option.map_some', Option.some.injEq] at hx
    rw [← hx]
    exact amount_nonneg_of_no_minus v hm
  · rw [parseOrderDetails_cod, hl] at hx
    simp only [Option.map_some', Option.some.injEq] at hx
    rw [← hx]
    exact amount_nonneg_of_no_minus v hm

/-- Claim C16, as amended, at a text with a delivery charge of 60 and a cod of -5: the
delivery charge is at least zero although the cod is negative. -/
theorem amounts_nonneg_without_minus_witness :
    lastValue "delivery charge" (split negativeCodText '\n') = some "60" ∧
      startsWithMinus "60" = false ∧
      (parseOrderDetails negativeCodText).deliveryCharge = some (JSNum.fin 60) ∧
      (JSNum.fin 60).NonNeg ∧
      (parseOrderDetails negativeCodText).cod = some (JSNum.fin (-5)) :=
  ⟨by decide, by decide, by with_unfolding_all decide,
    (amounts_nonneg_without_minus negativeCodText).1 "60" (JSNum.fin 60) (by decide) (by decide)
      (by with_unfolding_all decide),
    by with_unfolding_all decide⟩

/-- Claim C16 fails as stated. The values `-5` and `-2.5` yield the negative amounts -5
and -5/2. -/
theorem negative_amounts_kept :
    (parseOrderDetails "delivery charge: -5\npaid in advance: -2.5\ncod: -5").deliveryCharge =
        some (JSNum.fin (-5)) ∧
      (parseOrderDetails "delivery charge: -5\npaid in advance: -2.5\ncod: -5").paidInAdvance =
        some (JSNum.fin (-5 / 2)) ∧
      (parseOrderDetails "delivery charge: -5\npaid in advance: -2.5\ncod: -5").cod =
        some (JSNum.fin (-5)) ∧
      ¬ (JSNum.fin (-5)).NonNeg ∧ ¬ (JSNum.fin (-5 / 2)).NonNeg := by
  refine ⟨by with_unfolding_all decide, by with_unfolding_all decide,
    by with_unfolding_all decide, ?_, ?_⟩
  · show ¬ ((0 : ℚ) ≤ -5)
    norm_num
  · show ¬ ((0 : ℚ) ≤ -5 / 2)
    norm_num

/-! ## The header of the order -/

theorem transactionBody_order (db : Store) (orderDetails : OrderDetails) (recipientId : String)
    (w : Staged) (h : transactionBody db orderDetails recipientId = Except.ok w) :
    w.order.status = "confirmed" ∧ w.order.source = "Facebook-Admin" ∧
      w.order.customerName = orderDetails.name ∧
      w.order.customerAddress = orderDetails.address ∧
      w.order.customerPhoneNumber = orderDetails.phone ∧
      w.order.deliveryCharge = orderDetails.deliveryCharge ∧
      w.order.advancePaid = orderDetails.paidInAdvance ∧
      w.order.codAmount = orderDetails.cod ∧
      w.order.totalOrderPrice = orderDetails.cod ∧
      w.order.createdAt = FieldValue.serverTimestamp ∧
      w.order.orderDate = FieldValue.serverTimestamp ∧
      w.order.userId = recipientId := by
  unfold transactionBody at h
  cases hc : orderDetails.productCodes with
  | none => simp [hc] at h
  | some codes =>
    simp only [hc] at h
    cases hp : processCodes db {} codes with
    | error e => simp [hp] at h
    | ok st =>
      simp only [hp, Except.ok.injEq] at h
      subst h
      exact ⟨rfl, rfl, rfl, rfl, rfl, rfl, rfl, rfl, rfl, rfl, rfl, rfl⟩

/-- Claim C15. The order created by a successful confirmation has status `confirmed`; its
customer name, address and phone are the parsed name, address and phone; its
`deliveryCharge`, `advancePaid` and `codAmount` are the parsed delivery charge, paid in
advance and cod amounts; and its `userId` is the identifier taken from the triggering
event. It also carries the source tag and the two server timestamps. -/
theorem order_header_fields (db : Store) (text : String) (recipientId : String)
    (hok : (confirmOrder db text recipientId).1 = Except.ok ()) :
    ∃ order, (confirmOrder db text recipientId).2.orders = db.orders ++ [order] ∧
      order.status = "confirmed" ∧
      order.customerName = (parseOrderDetails text).name ∧
      order.customerAddress = (parseOrderDetails text).address ∧
      order.customerPhoneNumber = (parseOrderDetails text).phone ∧
      order.deliveryCharge = (parseOrderDetails text).deliveryCharge ∧
      order.advancePaid = (parseOrderDetails text).paidInAdvance ∧
      order.codAmount = (parseOrderDetails text).cod ∧
      order.userId = recipientId ∧
      order.source = "Facebook-Admin" ∧
      order.createdAt = FieldValue.serverTimestamp ∧
      order.orderDate = FieldValue.serverTimestamp := by
  obtain ⟨w, hw, hstore⟩ := confirmDetails_ok db (parseOrderDetails text) recipientId hok
  obtain ⟨h1, h2, h3, h4, h5, h6, h7, h8, _, h10, h11, h12⟩ :=
    transactionBody_order db (parseOrderDetails text) recipientId w hw
  refine ⟨w.order, ?_, h1, h3, h4, h5, h6, h7, h8, h12, h2, h10, h11⟩
  unfold confirmOrder
  rw [hstore]
  rfl

/-- Claim C15 at the two-item text on the sample store. -/
theorem order_header_fields_witness :
    (confirmOrder sampleStore twoItemText "page1").1 = Except.ok () ∧
      ∃ order, (confirmOrder sampleStore twoItemText "page1").2.orders = sampleStore.orders ++ [order] ∧
        order.status = "confirmed" ∧
        order.customerName = (parseOrderDetails twoItemText).name ∧
        order.customerAddress = (parseOrderDetails twoItemText).address ∧
        order.customerPhoneNumber = (parseOrderDetails twoItemText).phone ∧
        order.deliveryCharge = (parseOrderDetails twoItemText).deliveryCharge ∧
        order.advancePaid = (parseOrderDetails twoItemText).paidInAdvance ∧
        order.codAmount = (parseOrderDetails twoItemText).cod ∧
        order.userId = "page1" ∧
        order.source = "Facebook-Admin" ∧
        order.createdAt = FieldValue.serverTimestamp ∧
        order.orderDate = FieldValue.serverTimestamp :=
  ⟨by decide, order_header_fields sampleStore twoItemText "page1" (by decide)⟩

/-! ## No empty orders -/

/-- The list of codes of a parsed text, when there is one, is not empty. -/
theorem parsed_codes_ne_nil (text : String) (codes : List String)
    (h : (parseOrderDetails text).productCodes = some codes) : codes ≠ [] := by
  rw [parseOrderDetails_productCodes] at h
  cases hl : lastValue "product code" (split text '\n') with
  | none => rw [hl] at h; cases h
  | some v =>
    rw [hl] at h
    simp only [Option.map_some', Option.some.injEq] at h
    rw [← h]
    intro hnil
    exact split_ne_nil v ',' (List.map_eq_nil_iff.1 hnil)

/-- Claim C20. Every order created by the confirmation of a text has at least one item. A
text with no `product code` line makes the confirmation fail, and so does a text whose
last `product code` line has an empty value; in both cases the store is left as it was:
no order is created and no stock changes. -/
theorem no_empty_orders (db : Store) (text : String) (recipientId : String) :
    ((confirmOrder db text recipientId).1 = Except.ok () →
        ∃ order, (confirmOrder db text recipientId).2.orders = db.orders ++ [order] ∧
          1 ≤ order.items.length) ∧
      (lastValue "product code" (split text '\n') = none →
        confirmOrder db text recipientId = (Except.error ConfirmError.notIterable, db)) ∧
      (lastValue "product code" (split text '\n') = some "" →
        confirmOrder db text recipientId = (Except.error (ConfirmError.invalidCode ""), db)) := by
  refine ⟨fun hok => ?_, fun hnone => ?_, fun hempty => ?_⟩
  · obtain ⟨w, hw, hstore⟩ := confirmDetails_ok db (parseOrderDetails text) recipientId hok
    obtain ⟨codes, hcodes⟩ := productCodes_of_ok db (parseOrderDetails text) recipientId w hw
    obtain ⟨_, fi⟩ := transactionBody_ok db (parseOrderDetails text) recipientId codes w hcodes hw
    refine ⟨w.order, ?_, ?_⟩
    · unfold confirmOrder
      rw [hstore]
      rfl
    · have hne := parsed_codes_ne_nil text codes hcodes
      rw [← fi.length_eq]
      cases codes with
      | nil => exact absurd rfl hne
      | cons c cs => simp
  · have hcodes : (parseOrderDetails text).productCodes = none := by
      rw [parseOrderDetails_productCodes, hnone]
      rfl
    simp [confirmOrder, confirmDetails, runTransaction, transactionBody, hcodes]
  · have hcodes : (parseOrderDetails text).productCodes = some [""] := by
      rw [parseOrderDetails_productCodes, hempty]
      decide
    have hcode : processCode db {} "" = Except.error (ConfirmError.invalidCode "") := by
      rw [processCode_eq, if_pos (by decide)]
    simp [confirmOrder, confirmDetails, runTransaction, transactionBody, hcodes, processCodes,
      hcode]

/-- Claim C20 at a text without a `product code` line and at a text whose `product code`
line is empty: both confirmations fail and leave the sample store as it was. -/
theorem no_empty_orders_witness :
    confirmOrder sampleStore "/confirmation\nname: Rahim\ncod: 400" "page1" =
        (Except.error ConfirmError.notIterable, sampleStore) ∧
      confirmOrder sampleStore "/confirmation\nproduct code:\ncod: 400" "page1" =
        (Except.error (ConfirmError.invalidCode ""), sampleStore) :=
  ⟨(no_empty_orders sampleStore "/confirmation\nname: Rahim\ncod: 400" "page1").2.1 (by decide),
    (no_empty_orders sampleStore "/confirmation\nproduct code:\ncod: 400" "page1").2.2
      (by decide)⟩

/-! ## Ignored lines -/

theorem setName_of_ne (key value : String) (details : OrderDetails) (h : key ≠ "name") :
    setName key value details = details := by
  unfold setName; rw [if_neg h]

theorem setAddress_of_ne (key value : String) (details : OrderDetails) (h : key ≠ "address") :
    setAddress key value details = details := by
  unfold setAddress; rw [if_neg h]

theorem setPhone_of_ne (key value : String) (details : OrderDetails) (h : key ≠ "phone") :
    setPhone key value details = details := by
  unfold setPhone; rw [if_neg h]

theorem setProductCodes_of_ne (key value : String) (details : OrderDetails)
    (h : key ≠ "product code") : setProductCodes key value details = details := by
  unfold setProductCodes; rw [if_neg h]

theorem setDeliveryCharge_of_ne (key value : String) (details : OrderDetails)
    (h : key ≠ "delivery charge") : setDeliveryCharge key value details = details := by
  unfold setDeliveryCharge; rw [if_neg h]

theorem setPaidInAdvance_of_ne (key value : String) (details : OrderDetails)
    (h : key ≠ "paid in advance") : setPaidInAdvance key value details = details := by
  unfold setPaidInAdvance; rw [if_neg h]

theorem setCod_of_ne (key value : String) (details : OrderDetails) (h : key ≠ "cod") :
    setCod key value details = details := by
  unfold setCod; rw [if_neg h]

/-- The loop body leaves the object as it is on an ignored line. -/
theorem parseLine_of_ignored (details : OrderDetails) (line : String) (h : Ignored line) :
    parseLine details line = details := by
  by_cases hc : ':' ∈ line.data
  · have hk : toLowerCase (trim (beforeColon line)) ∉ recognizedKeys := by
      rcases h with h | h
      · exact absurd hc h
      · exact h
    simp only [recognizedKeys, List.mem_cons, List.mem_singleton, List.not_mem_nil, or_false,
      not_or] at hk
    obtain ⟨h1, h2, h3, h4, h5, h6, h7⟩ := hk
    rw [parseLine_of_colon details line hc, setName_of_ne _ _ _ h1, setAddress_of_ne _ _ _ h2,
      setPhone_of_ne _ _ _ h3, setProductCodes_of_ne _ _ _ h4, setDeliveryCharge_of_ne _ _ _ h5,
      setPaidInAdvance_of_ne _ _ _ h6, setCod_of_ne _ _ _ h7]
  · exact parseLine_of_no_colon details line hc

theorem splitChars_no_sep (sep : Char) (cs : List Char) : ∀ p ∈ splitChars sep cs, sep ∉ p := by
  induction cs with
  | nil =>
    intro p hp
    simp only [splitChars, List.mem_singleton] at hp
    subst hp
    simp
  | cons c cs ih =>
    intro p hp
    by_cases hc : c = sep
    · simp only [splitChars, hc, if_true, List.mem_cons] at hp
      rcases hp with rfl | hp
      · simp
      · exact ih p hp
    · cases hs : splitChars sep cs with
      | nil => exact absurd hs (splitChars_ne_nil sep cs)
      | cons p1 rest =>
        simp only [splitChars, hc, if_false, hs, List.mem_cons] at hp
        rcases hp with rfl | hp
        · intro hmem
          rcases List.mem_cons.1 hmem with h | h
          · exact hc h.symm
          · exact ih p1 (by rw [hs]; exact List.mem_cons_self _ _) h
        · exact ih p (by rw [hs]; exact List.mem_cons_of_mem _ hp)

theorem foldl_join_data (sep : Char) (ls : List String) :
    ∀ acc : String,
      (ls.foldl (fun acc a => acc ++ String.mk [sep] ++ a) acc).data = acc.data ++ sepTail sep ls := by
  induction ls with
  | nil => intro acc; simp [sepTail]
  | cons l ls ih =>
    intro acc
    rw [List.foldl_cons, ih]
    simp [sepTail, String.data_append, List.append_assoc]

theorem splitChars_sepTail (sep : Char) (ls : List String) (hls : ∀ l ∈ ls, sep ∉ l.data) :
    ∀ a : List Char, sep ∉ a → splitChars sep (a ++ sepTail sep ls) = a :: ls.map String.data := by
  induction ls with
  | nil =>
    intro a ha
    simp only [sepTail, List.append_nil, List.map_nil]
    exact splitChars_of_not_mem sep a ha
  | cons l ls ih =>
    intro a ha
    have hl : sep ∉ l.data := hls l (List.mem_cons_self _ _)
    have hrest : ∀ x ∈ ls, sep ∉ x.data := fun x hx => hls x (List.mem_cons_of_mem _ hx)
    simp only [sepTail, List.map_cons]
    rw [splitChars_append sep a _ ha, ih hrest l.data hl]

/-- Splitting a joined list of separator-free lines gives the list back. -/
theorem split_join (sep : Char) (l : String) (ls : List String)
    (hls : ∀ x ∈ l :: ls, sep ∉ x.data) :
    split (join (l :: ls) (String.mk [sep])) sep = l :: ls := by
  have hl : sep ∉ l.data := hls l (List.mem_cons_self _ _)
  have hrest : ∀ x ∈ ls, sep ∉ x.data := fun x hx => hls x (List.mem_cons_of_mem _ hx)
  unfold split join
  simp only [String.intercalate, intercalate_go_eq_foldl, foldl_join_data]
  rw [splitChars_sepTail sep ls hrest l.data hl]
  have hid : List.map (String.mk ∘ String.data) ls = ls := by
    induction ls with
    | nil => rfl
    | cons x xs ih =>
      rw [List.map_cons, ih (fun y hy => hls y (by
        rcases List.mem_cons.1 hy with rfl | hy
        · exact List.mem_cons_self _ _
        · exact List.mem_cons_of_mem _ (List.mem_cons_of_mem _ hy)))
        (fun y hy => hrest y (List.mem_cons_of_mem _ hy))]
      rfl
  simp [hid]

theorem split_lines_no_newline (text : String) : ∀ x ∈ split text '\n', '\n' ∉ x.data := by
  intro x hx
  unfold split at hx
  obtain ⟨p, hp, rfl⟩ := List.mem_map.1 hx
  exact splitChars_no_sep '\n' text.data p hp

/-- Claim C17. For every text and every line that has no `:`, or whose key (the text
before its first `:`, trimmed and lower-cased) is not one of the seven recognized keys,
inserting that line at any line position of the text leaves the result of the parser
unchanged. -/
theorem ignored_line_insertion (text : String) (l : String) (i : Nat) (hl : Ignored l)
    (hnl : '\n' ∉ l.data) :
    parseOrderDetails (join (insertLine (split text '\n') i l) "\n") = parseOrderDetails text := by
  have hsplit : split (join (insertLine (split text '\n') i l) "\n") '\n' =
      insertLine (split text '\n') i l := by
    have hall : ∀ x ∈ insertLine (split text '\n') i l, '\n' ∉ x.data := by
      intro x hx
      unfold insertLine at hx
      rcases List.mem_append.1 hx with hx | hx
      · exact split_lines_no_newline text x (List.mem_of_mem_take hx)
      · rcases List.mem_cons.1 hx with rfl | hx
        · exact hnl
        · exact split_lines_no_newline text x (List.mem_of_mem_drop hx)
    cases hins : insertLine (split text '\n') i l with
    | nil =>
      unfold insertLine at hins
      simp at hins
    | cons a as =>
      rw [hins] at hall
      exact split_join '\n' a as hall
  unfold parseOrderDetails
  rw [hsplit]
  unfold insertLine
  rw [List.foldl_append, List.foldl_cons, parseLine_of_ignored _ l hl, ← List.foldl_append,
    List.take_append_drop]

/-- Claim C17 at the two-item text, with a line of free text inserted after its third
line and a line with an unknown key inserted at its start. -/
theorem ignored_line_insertion_witness :
    Ignored "thanks a lot" ∧ Ignored "color: red" ∧
      parseOrderDetails (join (insertLine (split twoItemText '\n') 3 "thanks a lot") "\n") =
        parseOrderDetails twoItemText ∧
      parseOrderDetails (join (insertLine (split twoItemText '\n') 0 "color: red") "\n") =
        parseOrderDetails twoItemText :=
  ⟨by decide, by decide,
    ignored_line_insertion twoItemText "thanks a lot" 3 (by decide) (by decide),
    ignored_line_insertion twoItemText "color: red" 0 (by decide) (by decide)⟩

/-! ## How much stock a commit removes -/

theorem foldl_add_values (sizes : List (String × Int)) :
    ∀ init : Int, sizes.foldl (fun a kv => a + kv.2) init = init + sumValues sizes := by
  unfold sumValues
  induction sizes with
  | nil => intro init; simp
  | cons x xs ih =>
    intro init
    rw [List.foldl_cons, List.foldl_cons, ih (init + x.2), ih (0 + x.2)]
    omega

theorem sumValues_cons (x : String × Int) (xs : List (String × Int)) :
    sumValues (x :: xs) = x.2 + sumValues xs := by
  have h := foldl_add_values xs (0 + x.2)
  unfold sumValues at h ⊢
  rw [List.foldl_cons, h]
  omega

/-- Lowering one present entry by 1 lowers the sum by 1. -/
theorem sumValues_decrementSize (sizes : List (String × Int)) (sizeKey : String) (q : Int)
    (hl : sizes.lookup sizeKey = some q) :
    sumValues (decrementSize sizes sizeKey) = sumValues sizes - 1 := by
  induction sizes with
  | nil => simp at hl
  | cons x xs ih =>
    obtain ⟨k, v⟩ := x
    unfold decrementSize
    by_cases hk : k = sizeKey
    · rw [if_pos hk, sumValues_cons, sumValues_cons]
      show v - 1 + sumValues xs = v + sumValues xs - 1
      omega
    · rw [if_neg hk, sumValues_cons, sumValues_cons]
      have hbeq : (sizeKey == k) = false := by
        simp only [beq_eq_false_iff_ne, ne_eq]
        exact fun h => hk h.symm
      simp only [List.lookup_cons, hbeq] at hl
      rw [ih hl]
      show v + (sumValues xs - 1) = v + sumValues xs - 1
      omega

/-- Two lists of documents of the same length whose stock differs, position by position,
by 1 at the referenced positions and by 0 elsewhere, differ in total by the number of
referenced positions. -/
theorem sum_stock_touched (refs : List Nat) :
    ∀ (l l1 : List ProductDoc) (k : Nat), l.length = l1.length →
      (∀ r d d1, l[r]? = some d → l1[r]? = some d1 →
        sumValues (d1.data.sizes.getD []) =
          sumValues (d.data.sizes.getD []) - (if k + r ∈ refs then 1 else 0)) →
      (l1.map (fun d => sumValues (d.data.sizes.getD []))).sum =
        (l.map (fun d => sumValues (d.data.sizes.getD []))).sum - touchedFrom refs k l.length := by
  intro l
  induction l with
  | nil =>
    intro l1 k hlen _
    have : l1 = [] := List.length_eq_zero.1 hlen.symm
    subst this
    simp [touchedFrom]
  | cons d ds ih =>
    intro l1 k hlen hpt
    cases l1 with
    | nil => simp at hlen
    | cons d1 ds1 =>
      have hlen1 : ds.length = ds1.length := by simpa using hlen
      have hhead := hpt 0 d d1 (List.getElem?_cons_zero ..) (List.getElem?_cons_zero ..)
      have htail := ih ds1 (k + 1) hlen1 (fun r x x1 hx hx1 => by
        have := hpt (r + 1) x x1 (by simpa using hx) (by simpa using hx1)
        have hidx : k + (r + 1) = k + 1 + r := by omega
        rw [hidx] at this
        exact this)
      simp only [List.map_cons, List.sum_cons, List.length_cons, touchedFrom]
      rw [htail, hhead]
      simp only [Nat.add_zero]
      omega

/-- The stock removed by the commit of a successful callback: one piece for each document
referenced by an update, however many updates reference it. -/
theorem totalStock_commit (db : Store) (codes : List String) (w : Staged)
    (hups : List.Forall₂
      (fun code u => ∃ ref doc, Resolves db code ref doc ∧ u = stagedUpdate ref doc (sizeKeyOf code))
      codes w.updates) :
    totalStock (commit db w) = totalStock db - touchedDocs db w.updates := by
  unfold totalStock touchedDocs
  have hlen : db.inventory.length = (commit db w).inventory.length :=
    (foldl_applyUpdate_length w.updates db.inventory).symm
  apply sum_stock_touched (w.updates.map (fun u => u.ref)) db.inventory (commit db w).inventory 0 hlen
  intro r d d1 hd hd1
  obtain ⟨d2, hd2, hcase⟩ := foldl_applyUpdate_getElem? w.updates db.inventory r d hd
  have hdd : d2 = d1 := by
    have h2 : (commit db w).inventory[r]? = some d2 := hd2
    rw [hd1] at h2
    exact (Option.some.inj h2).symm
  subst hdd
  simp only [Nat.zero_add]
  rcases hcase with ⟨heq, hno⟩ | ⟨u, hu, href, hs, _⟩
  · have hnot : r ∉ w.updates.map (fun u => u.ref) := by
      intro hmem
      obtain ⟨u, hu, hur⟩ := List.mem_map.1 hmem
      exact hno u hu hur
    rw [if_neg hnot, heq]
    omega
  · have hmem : r ∈ w.updates.map (fun u => u.ref) := List.mem_map.2 ⟨u, hu, href⟩
    rw [if_pos hmem]
    obtain ⟨code, _, ref, doc, hres, hueq⟩ := forall₂_mem_right hups u hu
    obtain ⟨_, hq, q, hl, _⟩ := hres
    have hdoc : db.inventory[ref]? = some doc := queryByProductId_getElem? db _ ref doc hq
    have hrr : ref = r := by rw [← href, hueq]; rfl
    rw [hrr, hd] at hdoc
    have hdeq : d = doc := Option.some.inj hdoc
    rw [hs, hueq, hdeq]
    exact sumValues_decrementSize _ _ q hl

/-! ## Confirming the same text twice -/

theorem applyUpdate_product_ids (inventory : List ProductDoc) (u : InventoryUpdate) :
    (applyUpdate inventory u).map (fun d => d.data.product_id) =
      inventory.map (fun d => d.data.product_id) := by
  apply List.ext_getElem?
  intro j
  rw [List.getElem?_map, List.getElem?_map]
  cases hj : inventory[j]? with
  | none =>
    have hlen : inventory.length ≤ j := by
      rcases Nat.lt_or_ge j inventory.length with h | h
      · rw [List.getElem?_eq_getElem h] at hj; cases hj
      · exact h
    have : (applyUpdate inventory u)[j]? = none :=
      List.getElem?_eq_none (by rw [applyUpdate_length]; exact hlen)
    rw [this]
  | some d0 =>
    obtain ⟨d, hd, hcase⟩ := applyUpdate_getElem? inventory u j d0 hj
    unfold applyUpdate at hd ⊢
    cases hu : inventory[u.ref]? with
    | none =>
      simp only [hu] at hd ⊢
      rw [hj]
    | some du =>
      simp only [hu] at hd ⊢
      by_cases hr : u.ref = j
      · have hdu : du = d0 := by
          rw [hr, hj] at hu
          exact (Option.some.inj hu).symm
        have hlt : u.ref < inventory.length := by
          rcases Nat.lt_or_ge u.ref inventory.length with h | h
          · exact h
          · rw [List.getElem?_eq_none h] at hu; cases hu
        rw [← hr, List.getElem?_set_self hlt, hdu]
        rfl
      · rw [List.getElem?_set_ne hr, hj]

theorem foldl_applyUpdate_product_ids (ups : List InventoryUpdate) :
    ∀ inventory : List ProductDoc,
      (ups.foldl applyUpdate inventory).map (fun d => d.data.product_id) =
        inventory.map (fun d => d.data.product_id) := by
  induction ups with
  | nil => intro inventory; rfl
  | cons u us ih =>
    intro inventory
    rw [List.foldl_cons, ih, applyUpdate_product_ids]

/-- The reference returned by the query depends on the `product_id` values alone. -/
theorem queryFrom_ref_congr (productId : String) :
    ∀ (ds ds1 : List ProductDoc) (i : Nat),
      ds.map (fun d => d.data.product_id) = ds1.map (fun d => d.data.product_id) →
      (queryFrom productId ds i).map Prod.fst = (queryFrom productId ds1 i).map Prod.fst := by
  intro ds
  induction ds with
  | nil =>
    intro ds1 i h
    cases ds1 with
    | nil => rfl
    | cons x xs => simp at h
  | cons d ds ih =>
    intro ds1 i h
    cases ds1 with
    | nil => simp at h
    | cons d1 ds1 =>
      simp only [List.map_cons, List.cons.injEq] at h
      obtain ⟨hid, htl⟩ := h
      unfold queryFrom
      by_cases hd : d.data.product_id = productId
      · have hd1 : d1.data.product_id = productId := by rw [← hid]; exact hd
        rw [if_pos hd, if_pos hd1]
        rfl
      · have hd1 : ¬ d1.data.product_id = productId := by rw [← hid]; exact hd
        rw [if_neg hd, if_neg hd1]
        exact ih ds1 (i + 1) htl

/-- Against two stores with the same `product_id` values, the same codes stage updates for
the same references. -/
theorem staged_refs_congr (db db1 : Store)
    (hids : db.inventory.map (fun d => d.data.product_id) =
      db1.inventory.map (fun d => d.data.product_id)) :
    ∀ (codes : List String) (ups ups1 : List InventoryUpdate),
      List.Forall₂
        (fun code u => ∃ ref doc, Resolves db code ref doc ∧ u = stagedUpdate ref doc (sizeKeyOf code))
        codes ups →
      List.Forall₂
        (fun code u => ∃ ref doc, Resolves db1 code ref doc ∧ u = stagedUpdate ref doc (sizeKeyOf code))
        codes ups1 →
      ups.map (fun u => u.ref) = ups1.map (fun u => u.ref) := by
  intro codes
  induction codes with
  | nil =>
    intro ups ups1 h h1
    cases h
    cases h1
    rfl
  | cons c cs ih =>
    intro ups ups1 h h1
    cases h with
    | cons hu hrest =>
      cases h1 with
      | cons hu1 hrest1 =>
        obtain ⟨ref, doc, hres, hueq⟩ := hu
        obtain ⟨ref1, doc1, hres1, hueq1⟩ := hu1
        have hq := hres.2.1
        have hq1 := hres1.2.1
        have hcongr := queryFrom_ref_congr (trim (productIdPart c)) db.inventory db1.inventory 0 hids
        unfold queryByProductId at hq hq1
        rw [hq, hq1] at hcongr
        simp only [Option.map_some', Option.some.injEq] at hcongr
        simp only [List.map_cons, List.cons.injEq]
        refine ⟨?_, ih _ _ hrest hrest1⟩
        rw [hueq, hueq1]
        exact hcongr

/-- Claim C19. When two successive confirmations of the same text both succeed, the second
one adds a second, separate order after the first, and the stock removed by the two runs
together is twice the stock removed by the first run. -/
theorem confirm_twice (db : Store) (text : String) (recipientId : String)
    (h1 : (confirmOrder db text recipientId).1 = Except.ok ())
    (h2 : (confirmOrder (confirmOrder db text recipientId).2 text recipientId).1 = Except.ok ()) :
    (∃ o1 o2,
        (confirmOrder db text recipientId).2.orders = db.orders ++ [o1] ∧
        (confirmOrder (confirmOrder db text recipientId).2 text recipientId).2.orders =
          db.orders ++ [o1, o2]) ∧
      totalStock db - totalStock (confirmOrder (confirmOrder db text recipientId).2 text recipientId).2 =
        2 * (totalStock db - totalStock (confirmOrder db text recipientId).2) := by
  obtain ⟨w1, hw1, hs1⟩ := confirmDetails_ok db (parseOrderDetails text) recipientId h1
  have hs1' : (confirmOrder db text recipientId).2 = commit db w1 := hs1
  rw [hs1'] at h2 ⊢
  obtain ⟨w2, hw2, hs2⟩ := confirmDetails_ok (commit db w1) (parseOrderDetails text) recipientId h2
  have hs2' : (confirmOrder (commit db w1) text recipientId).2 = commit (commit db w1) w2 := hs2
  rw [hs2']
  obtain ⟨codes, hcodes⟩ := productCodes_of_ok db (parseOrderDetails text) recipientId w1 hw1
  obtain ⟨fu1, _⟩ := transactionBody_ok db (parseOrderDetails text) recipientId codes w1 hcodes hw1
  obtain ⟨fu2, _⟩ :=
    transactionBody_ok (commit db w1) (parseOrderDetails text) recipientId codes w2 hcodes hw2
  have hids : db.inventory.map (fun d => d.data.product_id) =
      (commit db w1).inventory.map (fun d => d.data.product_id) :=
    (foldl_applyUpdate_product_ids w1.updates db.inventory).symm
  have hrefs := staged_refs_congr db (commit db w1) hids codes w1.updates w2.updates fu1 fu2
  have hlen : (commit db w1).inventory.length = db.inventory.length :=
    foldl_applyUpdate_length w1.updates db.inventory
  have ht1 := totalStock_commit db codes w1 fu1
  have ht2 := totalStock_commit (commit db w1) codes w2 fu2
  have htouched : touchedDocs (commit db w1) w2.updates = touchedDocs db w1.updates := by
    unfold touchedDocs
    rw [hlen, hrefs]
  rw [htouched] at ht2
  refine ⟨⟨w1.order, w2.order, rfl, ?_⟩, ?_⟩
  · show (db.orders ++ [w1.order]) ++ [w2.order] = db.orders ++ [w1.order, w2.order]
    simp
  · rw [ht2, ht1]
    omega

/-- Claim C19 at the text for size `L` of the shirt, of which three pieces are stored: both
confirmations succeed, two orders are added, and the stock removed is 1 and then 2. -/
theorem confirm_twice_witness :
    (confirmOrder sampleStore sameLargeTwiceText "page1").1 = Except.ok () ∧
      (confirmOrder (confirmOrder sampleStore sameLargeTwiceText "page1").2 sameLargeTwiceText
          "page1").1 = Except.ok () ∧
      (∃ o1 o2,
        (confirmOrder sampleStore sameLargeTwiceText "page1").2.orders = sampleStore.orders ++ [o1] ∧
        (confirmOrder (confirmOrder sampleStore sameLargeTwiceText "page1").2 sameLargeTwiceText
            "page1").2.orders = sampleStore.orders ++ [o1, o2]) ∧
      totalStock sampleStore -
          totalStock
            (confirmOrder (confirmOrder sampleStore sameLargeTwiceText "page1").2
              sameLargeTwiceText "page1").2 =
        2 * (totalStock sampleStore - totalStock (confirmOrder sampleStore sameLargeTwiceText "page1").2) :=
  ⟨by decide, by decide,
    confirm_twice sampleStore sameLargeTwiceText "page1" (by decide) (by decide)⟩

end FacebookWebhook
